import Mathlib

/-!
Verification of the smugit merge-conflict engine: the hunk parser and
classifier (`packages/cli/src/commands/analyze.ts` / the shared helpers),
the builtin resolution plugins (`packages/cli/src/git/plugins/builtin.ts`),
the plugin registry (`packages/cli/src/git/plugins/registry.ts`) and the
resolver orchestration (`ConflictResolver`).

The TypeScript is embedded shallowly: strings stay strings, arrays become
lists, `Map` insertion-ordered state becomes association lists, `async`
calls that only touch the file system become explicit state passing over a
small `FS` model, exceptions become `Except`, and `null`/`undefined`
become `Option`.
-/

namespace Smugit

/-! ## Basic string helpers (JS semantics)

Core `String` functions such as `String.splitOn` and `String.startsWith`
are opaque to the kernel, so the JS primitives are re-implemented over the
underlying character lists; each is a direct model of the JS operation
named in its doc comment. -/

/-- JavaScript `s.startsWith(pre)`. -/
def jsStartsWith (s pre : String) : Bool :=
  pre.data.isPrefixOf s.data

/-- Worker for `jsSplitNl`: `acc` holds the current line reversed. -/
def splitNlAux : List Char → List Char → List String
  | acc, [] => [⟨acc.reverse⟩]
  | acc, c :: cs =>
    if c = '\n' then ⟨acc.reverse⟩ :: splitNlAux [] cs
    else splitNlAux (c :: acc) cs

/-- JavaScript `s.split('\n')` (so `jsSplitNl "" = [""]`). -/
def jsSplitNl (s : String) : List String :=
  splitNlAux [] s.data

/-- The characters matched by JavaScript's `\s` regex class (and removed by
`String.prototype.trim`). -/
def isJsWhitespace (c : Char) : Bool :=
  c.toNat ∈ [9, 10, 11, 12, 13, 32, 0xa0, 0x1680, 0x2028, 0x2029,
    0x202f, 0x205f, 0x3000, 0xfeff] ||
  (0x2000 ≤ c.toNat && c.toNat ≤ 0x200a)

/-- JavaScript `String.prototype.trim`. -/
def jsTrim (s : String) : String :=
  ⟨((s.data.dropWhile isJsWhitespace).reverse.dropWhile isJsWhitespace).reverse⟩

/-- JavaScript `String.prototype.trimEnd`. -/
def jsTrimEnd (s : String) : String :=
  ⟨(s.data.reverse.dropWhile isJsWhitespace).reverse⟩

/-- Character-level worker for `collapseWs`: the boolean records whether the
previous character was whitespace (so a run contributes one space). -/
def collapseWsAux : Bool → List Char → List Char
  | _, [] => []
  | prevWs, c :: cs =>
    if isJsWhitespace c then
      if prevWs then collapseWsAux true cs else ' ' :: collapseWsAux true cs
    else c :: collapseWsAux false cs

/-- JavaScript `s.replace(/\s+/g, ' ')`: every run of whitespace becomes a
single space. -/
def collapseWs (s : String) : String :=
  ⟨collapseWsAux false s.data⟩

/-! ## Hunk parser (`GitAnalyzer.parseConflictHunks`) -/

/-- The verbatim marker lines of a hunk; the TS field `end` is `endMarker`
here because `end` is a Lean keyword. -/
structure ConflictMarkers where
  start : String
  separator : String
  endMarker : String
deriving DecidableEq, Repr

/-- The shared `ConflictHunk` interface: 1-based inclusive line numbers,
contents joined with `"\n"`, verbatim marker lines. -/
structure ConflictHunk where
  startLine : Nat
  endLine : Nat
  baseContent : String
  currentContent : String
  incomingContent : String
  conflictMarkers : ConflictMarkers
deriving DecidableEq, Repr

/-- The control state of `parseConflictHunks`' scanning loop, read off the
source's nested `while` loops: `searching` is the top of the outer loop,
`inCurrent` the loop that collects current content until `=======`,
`inBase` the inner loop entered at a `|||||||` line, and `inIncoming` the
loop that collects incoming content until `>>>>>>>`.  The source records
the indices `startLine`/`separatorLine`/`endLine` and reads
`lines[startLine]` etc. when the hunk is pushed; since the `lines` array
never changes, those reads return the very lines that triggered each
transition, which is what the state carries here alongside the start
index. -/
inductive ParseState where
  | searching : ParseState
  | inCurrent (startIdx : Nat) (startMark : String) (cur : List String)
      (base : String) : ParseState
  | inBase (startIdx : Nat) (startMark : String) (cur : List String)
      (bacc : List String) : ParseState
  | inIncoming (startIdx : Nat) (startMark : String) (cur : List String)
      (base : String) (sepMark : String) (inc : List String) : ParseState

/-- One pass of `parseConflictHunks`' loop over the remaining lines, with
`i` the absolute index of the head line.  Faithful to the source, including
its handling of a `|||||||` base section: the inner base loop stops *at*
the `=======` line and the outer loop's trailing `i++` then steps *past*
it, so the scan returns to collecting current content after the separator
(and the `if (lines[i].startsWith('======='))` emission guard is missed
unless a second separator line appears). -/
def parseGo : List String → Nat → ParseState → List ConflictHunk
  | [], _, _ => []
  | line :: rest, i, st =>
    match st with
    | .searching =>
      if jsStartsWith line "<<<<<<<" then
        parseGo rest (i + 1) (.inCurrent i line [] "")
      else
        parseGo rest (i + 1) .searching
    | .inCurrent s sm cur base =>
      if jsStartsWith line "=======" then
        parseGo rest (i + 1) (.inIncoming s sm cur base line [])
      else if jsStartsWith line "|||||||" then
        parseGo rest (i + 1) (.inBase s sm cur [])
      else
        parseGo rest (i + 1) (.inCurrent s sm (cur ++ [line]) base)
    | .inBase s sm cur bacc =>
      if jsStartsWith line "=======" then
        parseGo rest (i + 1) (.inCurrent s sm cur (String.intercalate "\n" bacc))
      else
        parseGo rest (i + 1) (.inBase s sm cur (bacc ++ [line]))
    | .inIncoming s sm cur base sepm inc =>
      if jsStartsWith line ">>>>>>>" then
        { startLine := s + 1
          endLine := i + 1
          baseContent := base
          currentContent := String.intercalate "\n" cur
          incomingContent := String.intercalate "\n" inc
          conflictMarkers := { start := sm, separator := sepm, endMarker := line } }
          :: parseGo rest (i + 1) .searching
      else
        parseGo rest (i + 1) (.inIncoming s sm cur base sepm (inc ++ [line]))

/-- `parseConflictHunks` on a pre-split line list. -/
def parseLines (lines : List String) : List ConflictHunk :=
  parseGo lines 0 .searching

/-- `GitAnalyzer.parseConflictHunks`: split on `'\n'` and scan. -/
def parseConflictHunks (content : String) : List ConflictHunk :=
  parseLines (jsSplitNl content)

/-! ## Well-formed conflict regions (spec vocabulary for claims C1/C2) -/

/-- A line that starts with one of the four literal marker prefixes. -/
def isMarkerLine (l : String) : Bool :=
  jsStartsWith l "<<<<<<<" || jsStartsWith l "|||||||" ||
  jsStartsWith l "=======" || jsStartsWith l ">>>>>>>"

/-- One well-formed conflict region of a file, in the spec's sense: a start
marker, current lines, an optional base section (`|||||||` separator plus
base lines), the `=======` separator, incoming lines, and the end
marker. -/
structure ConflictRegion where
  startMark : String
  cur : List String
  base : Option (String × List String)
  sepMark : String
  inc : List String
  endMark : String
deriving DecidableEq, Repr

/-- The lines a region occupies in the file. -/
def ConflictRegion.lines (r : ConflictRegion) : List String :=
  r.startMark ::
    (r.cur ++
      ((match r.base with
        | none => []
        | some (bm, bls) => bm :: bls) ++
        (r.sepMark :: (r.inc ++ [r.endMark]))))

/-- Well-formedness of a region: the three marker lines carry their literal
prefixes and no content line looks like a marker. -/
def ConflictRegion.WF (r : ConflictRegion) : Prop :=
  jsStartsWith r.startMark "<<<<<<<" = true ∧
  jsStartsWith r.sepMark "=======" = true ∧
  jsStartsWith r.endMark ">>>>>>>" = true ∧
  (∀ l ∈ r.cur, isMarkerLine l = false) ∧
  (match r.base with
   | none => True
   | some (bm, bls) =>
     jsStartsWith bm "|||||||" = true ∧ ∀ l ∈ bls, isMarkerLine l = false) ∧
  (∀ l ∈ r.inc, isMarkerLine l = false)

/-- A file text assembled from interleaved junk line blocks and conflict
regions, ending in a trailing junk block. -/
def flatFile : List (List String × ConflictRegion) → List String → List String
  | [], trail => trail
  | (junk, r) :: ps, trail => junk ++ (r.lines ++ flatFile ps trail)

/-- Well-formed decomposition: every junk line (including the trailing
block) is not a conflict start, and every region is well-formed. -/
def DecompWF (ps : List (List String × ConflictRegion)) (trail : List String) : Prop :=
  (∀ p ∈ ps, (∀ l ∈ p.1, jsStartsWith l "<<<<<<<" = false) ∧ p.2.WF) ∧
  (∀ l ∈ trail, jsStartsWith l "<<<<<<<" = false)

/-- The hunk the parser is expected to produce for a (two-way) region whose
start marker sits at 0-based line `s`. -/
def hunkOfRegion (s : Nat) (r : ConflictRegion) : ConflictHunk :=
  { startLine := s + 1
    endLine := s + r.lines.length
    baseContent := ""
    currentContent := String.intercalate "\n" r.cur
    incomingContent := String.intercalate "\n" r.inc
    conflictMarkers :=
      { start := r.startMark, separator := r.sepMark, endMarker := r.endMark } }

/-- Expected hunks of a decomposition, with `i` the absolute index of the
first remaining line. -/
def expectedHunks : Nat → List (List String × ConflictRegion) → List ConflictHunk
  | _, [] => []
  | i, (junk, r) :: ps =>
    hunkOfRegion (i + junk.length) r :: expectedHunks (i + junk.length + r.lines.length) ps

/-! ## Parser lemmas -/

theorem isMarkerLine_false {l : String} (h : isMarkerLine l = false) :
    jsStartsWith l "<<<<<<<" = false ∧ jsStartsWith l "|||||||" = false ∧
    jsStartsWith l "=======" = false ∧ jsStartsWith l ">>>>>>>" = false := by
  simp only [isMarkerLine, Bool.or_eq_false_iff] at h
  exact ⟨h.1.1.1, h.1.1.2, h.1.2, h.2⟩

theorem parseGo_append_junk (junk : List String)
    (h : ∀ l ∈ junk, jsStartsWith l "<<<<<<<" = false) (rest : List String) (i : Nat) :
    parseGo (junk ++ rest) i .searching = parseGo rest (i + junk.length) .searching := by
  induction junk generalizing i with
  | nil => simp
  | cons l ls ih =>
    have hl := h l (by simp)
    have hls : ∀ x ∈ ls, jsStartsWith x "<<<<<<<" = false := fun x hx => h x (by simp [hx])
    have step : parseGo ((l :: ls) ++ rest) i .searching
        = parseGo (ls ++ rest) (i + 1) .searching := by
      simp [parseGo, hl]
    rw [step, ih hls]
    congr 1
    simp
    omega

theorem parseGo_append_cur (cur : List String)
    (h : ∀ l ∈ cur, isMarkerLine l = false) (rest : List String) (i s : Nat)
    (sm : String) (acc : List String) (base : String) :
    parseGo (cur ++ rest) i (.inCurrent s sm acc base) =
      parseGo rest (i + cur.length) (.inCurrent s sm (acc ++ cur) base) := by
  induction cur generalizing i acc with
  | nil => simp
  | cons l ls ih =>
    have hl := isMarkerLine_false (h l (by simp))
    have hls : ∀ x ∈ ls, isMarkerLine x = false := fun x hx => h x (by simp [hx])
    have step : parseGo ((l :: ls) ++ rest) i (.inCurrent s sm acc base)
        = parseGo (ls ++ rest) (i + 1) (.inCurrent s sm (acc ++ [l]) base) := by
      simp [parseGo, hl.2.1, hl.2.2.1]
    rw [step, ih hls]
    have h1 : i + 1 + ls.length = i + (l :: ls).length := by simp; omega
    have h2 : (acc ++ [l]) ++ ls = acc ++ l :: ls := by simp
    rw [h1, h2]

theorem parseGo_append_inc (inc : List String)
    (h : ∀ l ∈ inc, jsStartsWith l ">>>>>>>" = false) (rest : List String) (i s : Nat)
    (sm : String) (cur : List String) (base sepm : String) (acc : List String) :
    parseGo (inc ++ rest) i (.inIncoming s sm cur base sepm acc) =
      parseGo rest (i + inc.length) (.inIncoming s sm cur base sepm (acc ++ inc)) := by
  induction inc generalizing i acc with
  | nil => simp
  | cons l ls ih =>
    have hl := h l (by simp)
    have hls : ∀ x ∈ ls, jsStartsWith x ">>>>>>>" = false := fun x hx => h x (by simp [hx])
    have step : parseGo ((l :: ls) ++ rest) i (.inIncoming s sm cur base sepm acc)
        = parseGo (ls ++ rest) (i + 1) (.inIncoming s sm cur base sepm (acc ++ [l])) := by
      simp [parseGo, hl]
    rw [step, ih hls]
    have h1 : i + 1 + ls.length = i + (l :: ls).length := by simp; omega
    have h2 : (acc ++ [l]) ++ ls = acc ++ l :: ls := by simp
    rw [h1, h2]

/-- Scanning one well-formed two-way conflict block (start marker, current
lines, separator, incoming lines, end marker) from the searching state
emits exactly one hunk and resumes searching after the end marker. -/
theorem parseGo_two_way (i : Nat) (sm sep em : String) (cur inc rest : List String)
    (hsm : jsStartsWith sm "<<<<<<<" = true)
    (hcur : ∀ l ∈ cur, isMarkerLine l = false)
    (hsep : jsStartsWith sep "=======" = true)
    (hinc : ∀ l ∈ inc, jsStartsWith l ">>>>>>>" = false)
    (hem : jsStartsWith em ">>>>>>>" = true) :
    parseGo (sm :: (cur ++ (sep :: (inc ++ (em :: rest))))) i .searching =
      { startLine := i + 1, endLine := i + cur.length + inc.length + 3,
        baseContent := "", currentContent := String.intercalate "\n" cur,
        incomingContent := String.intercalate "\n" inc,
        conflictMarkers := { start := sm, separator := sep, endMarker := em } }
        :: parseGo rest (i + cur.length + inc.length + 3) .searching := by
  rw [show parseGo (sm :: (cur ++ (sep :: (inc ++ (em :: rest))))) i .searching
      = parseGo (cur ++ (sep :: (inc ++ (em :: rest)))) (i + 1) (.inCurrent i sm [] "") by
    simp [parseGo, hsm]]
  rw [parseGo_append_cur cur hcur]
  simp only [List.nil_append]
  rw [show parseGo (sep :: (inc ++ (em :: rest))) (i + 1 + cur.length)
        (.inCurrent i sm cur "")
      = parseGo (inc ++ (em :: rest)) (i + 1 + cur.length + 1)
        (.inIncoming i sm cur "" sep []) by
    simp [parseGo, hsep]]
  rw [parseGo_append_inc inc hinc]
  simp only [List.nil_append]
  rw [show parseGo (em :: rest) (i + 1 + cur.length + 1 + inc.length)
        (.inIncoming i sm cur "" sep inc)
      = { startLine := i + 1, endLine := i + 1 + cur.length + 1 + inc.length + 1,
          baseContent := "", currentContent := String.intercalate "\n" cur,
          incomingContent := String.intercalate "\n" inc,
          conflictMarkers := { start := sm, separator := sep, endMarker := em } }
          :: parseGo rest (i + 1 + cur.length + 1 + inc.length + 1) .searching by
    simp [parseGo, hem]]
  rw [show i + 1 + cur.length + 1 + inc.length + 1 = i + cur.length + inc.length + 3 by omega]

theorem length_region_lines (r : ConflictRegion) (hbase : r.base = none) :
    r.lines.length = r.cur.length + r.inc.length + 3 := by
  simp [ConflictRegion.lines, hbase]
  omega

/-- Scanning one well-formed two-way region from the searching state emits
exactly its hunk and resumes searching after the end marker. -/
theorem parseGo_region (r : ConflictRegion) (hwf : r.WF) (hbase : r.base = none)
    (rest : List String) (i : Nat) :
    parseGo (r.lines ++ rest) i .searching =
      hunkOfRegion i r :: parseGo rest (i + r.lines.length) .searching := by
  obtain ⟨hstart, hsep, hend, hcur, -, hinc⟩ := hwf
  have hinc' : ∀ l ∈ r.inc, jsStartsWith l ">>>>>>>" = false :=
    fun l hl => (isMarkerLine_false (hinc l hl)).2.2.2
  have hshape : r.lines ++ rest
      = r.startMark :: (r.cur ++ (r.sepMark :: (r.inc ++ (r.endMark :: rest)))) := by
    simp [ConflictRegion.lines, hbase]
  rw [hshape, parseGo_two_way i r.startMark r.sepMark r.endMark r.cur r.inc rest
    hstart hcur hsep hinc' hend]
  rw [hunkOfRegion, length_region_lines r hbase]
  rw [show i + (r.cur.length + r.inc.length + 3) = i + r.cur.length + r.inc.length + 3 by omega]

/-- Scanning a well-formed decomposition whose regions are all two-way
yields exactly the expected hunks. -/
theorem parseGo_flat (ps : List (List String × ConflictRegion)) (trail : List String)
    (hwf : DecompWF ps trail) (hbase : ∀ p ∈ ps, p.2.base = none) (i : Nat) :
    parseGo (flatFile ps trail) i .searching = expectedHunks i ps := by
  induction ps generalizing i with
  | nil =>
    have htrail := hwf.2
    simp only [flatFile, expectedHunks]
    have := parseGo_append_junk trail htrail [] i
    simpa using this
  | cons p ps ih =>
    obtain ⟨junk, r⟩ := p
    have hj : ∀ l ∈ junk, jsStartsWith l "<<<<<<<" = false := (hwf.1 (junk, r) (by simp)).1
    have hrwf : r.WF := (hwf.1 (junk, r) (by simp)).2
    have hrbase : r.base = none := hbase (junk, r) (by simp)
    have hwf' : DecompWF ps trail :=
      ⟨fun q hq => hwf.1 q (by simp [hq]), hwf.2⟩
    have hbase' : ∀ q ∈ ps, q.2.base = none := fun q hq => hbase q (by simp [hq])
    simp only [flatFile, expectedHunks]
    rw [parseGo_append_junk junk hj, parseGo_region r hrwf hrbase,
      ih hwf' hbase' (i + junk.length + r.lines.length)]

theorem region_getD_zero (r : ConflictRegion) (hbase : r.base = none) :
    r.lines.getD 0 "" = r.startMark := by
  simp [ConflictRegion.lines, hbase]

theorem region_getD_sep (r : ConflictRegion) (hbase : r.base = none) :
    r.lines.getD (r.cur.length + 1) "" = r.sepMark := by
  have hlines : r.lines = r.startMark :: (r.cur ++ (r.sepMark :: (r.inc ++ [r.endMark]))) := by
    simp [ConflictRegion.lines, hbase]
  rw [hlines, List.getD_cons_succ, List.getD_append_right _ _ _ _ (le_refl _), Nat.sub_self,
    List.getD_cons_zero]

theorem region_getD_end (r : ConflictRegion) (hbase : r.base = none) :
    r.lines.getD (r.cur.length + r.inc.length + 2) "" = r.endMark := by
  have hlines : r.lines = r.startMark :: (r.cur ++ (r.sepMark :: (r.inc ++ [r.endMark]))) := by
    simp [ConflictRegion.lines, hbase]
  rw [hlines,
    show r.cur.length + r.inc.length + 2 = (r.cur.length + r.inc.length + 1) + 1 by omega,
    List.getD_cons_succ, List.getD_append_right _ _ _ _ (by omega),
    show r.cur.length + r.inc.length + 1 - r.cur.length = r.inc.length + 1 by omega,
    List.getD_cons_succ, List.getD_append_right _ _ _ _ (le_refl _), Nat.sub_self,
    List.getD_cons_zero]

theorem getD_prefix_shift (pre tail : List String) (k : Nat) :
    (pre ++ tail).getD (pre.length + k) "" = tail.getD k "" := by
  rw [List.getD_append_right _ _ _ _ (by omega), Nat.add_sub_cancel_left]

theorem getD_region_at (pre : List String) (r : ConflictRegion) (tail : List String) (k : Nat)
    (hk : k < r.lines.length) :
    (pre ++ (r.lines ++ tail)).getD (pre.length + k) "" = r.lines.getD k "" := by
  rw [getD_prefix_shift, List.getD_append _ _ _ _ hk]

/-- Position facts for the expected hunks: the 1-based `startLine` and
`endLine` point at the recorded start and end marker lines of the file,
and the separator line sits strictly between them. -/
theorem expectedHunks_positions (ps : List (List String × ConflictRegion))
    (trail : List String) (hbase : ∀ p ∈ ps, p.2.base = none) (pre : List String) :
    ∀ h ∈ expectedHunks pre.length ps,
      h.startLine ≤ h.endLine ∧
      (pre ++ flatFile ps trail).getD (h.startLine - 1) "" = h.conflictMarkers.start ∧
      (pre ++ flatFile ps trail).getD (h.endLine - 1) "" = h.conflictMarkers.endMarker ∧
      ∃ j, h.startLine - 1 < j ∧ j < h.endLine - 1 ∧
        (pre ++ flatFile ps trail).getD j "" = h.conflictMarkers.separator := by
  induction ps generalizing pre with
  | nil => simp [expectedHunks]
  | cons p ps ih =>
    obtain ⟨junk, r⟩ := p
    have hrbase : r.base = none := hbase (junk, r) (by simp)
    have hbase' : ∀ q ∈ ps, q.2.base = none := fun q hq => hbase q (by simp [hq])
    have hlen := length_region_lines r hrbase
    have hfile : pre ++ flatFile ((junk, r) :: ps) trail
        = (pre ++ junk) ++ (r.lines ++ flatFile ps trail) := by
      simp [flatFile]
    have hplen : (pre ++ junk).length = pre.length + junk.length := by simp
    intro h hh
    simp only [expectedHunks, List.mem_cons] at hh
    rcases hh with hh | hh
    · subst hh
      rw [hfile]
      refine ⟨by simp [hunkOfRegion, hlen], ?_, ?_, ?_⟩
      · simp only [hunkOfRegion, Nat.add_sub_cancel]
        rw [← hplen, ← Nat.add_zero ((pre ++ junk).length),
          getD_region_at _ _ _ _ (by omega), region_getD_zero r hrbase]
      · simp only [hunkOfRegion]
        rw [show pre.length + junk.length + r.lines.length - 1
            = (pre ++ junk).length + (r.cur.length + r.inc.length + 2) by
          rw [hplen]; omega]
        rw [getD_region_at _ _ _ _ (by omega), region_getD_end r hrbase]
      · refine ⟨(pre ++ junk).length + (r.cur.length + 1), ?_, ?_, ?_⟩
        · simp [hunkOfRegion, hplen]
        · simp [hunkOfRegion, hplen, hlen]
          omega
        · rw [getD_region_at _ _ _ _ (by omega), region_getD_sep r hrbase]
          rfl
    · have htail := ih hbase' (pre ++ junk ++ r.lines) h
      rw [show (pre ++ junk ++ r.lines).length = pre.length + junk.length + r.lines.length by
        rw [List.length_append, List.length_append]] at htail
      have := htail hh
      rw [hfile]
      simpa [List.append_assoc] using this

/-- Regions have decidable well-formedness (used to check concrete files). -/
instance (r : ConflictRegion) : Decidable r.WF := by
  rcases r with ⟨sm, cur, base, sep, inc, em⟩
  rcases base with - | ⟨bm, bls⟩ <;>
    · simp only [ConflictRegion.WF]
      infer_instance

instance (ps : List (List String × ConflictRegion)) (trail : List String) :
    Decidable (DecompWF ps trail) := by
  unfold DecompWF
  infer_instance

theorem expectedHunks_length (i : Nat) (ps : List (List String × ConflictRegion)) :
    (expectedHunks i ps).length = ps.length := by
  induction ps generalizing i with
  | nil => rfl
  | cons p ps ih =>
    obtain ⟨junk, r⟩ := p
    simp [expectedHunks, ih]

/-! ## Claims C1 and C2 -/

/-- **C1 (amended).** For any file text whose lines decompose into junk
blocks and well-formed conflict regions none of which contains a `|||||||`
base separator, `parseConflictHunks` returns exactly one hunk per region,
and every returned hunk has `startLine ≤ endLine` (1-based) with its
recorded marker texts equal, character for character, to the original
lines of the file: `start` at line `startLine`, `end` at line `endLine`,
and `separator` at a line strictly between them. -/
theorem parse_two_way_regions_exact (content : String)
    (ps : List (List String × ConflictRegion)) (trail : List String)
    (hwf : DecompWF ps trail) (hbase : ∀ p ∈ ps, p.2.base = none)
    (hsplit : jsSplitNl content = flatFile ps trail) :
    (parseConflictHunks content).length = ps.length ∧
    ∀ h ∈ parseConflictHunks content,
      h.startLine ≤ h.endLine ∧
      (jsSplitNl content).getD (h.startLine - 1) "" = h.conflictMarkers.start ∧
      (jsSplitNl content).getD (h.endLine - 1) "" = h.conflictMarkers.endMarker ∧
      ∃ j, h.startLine - 1 < j ∧ j < h.endLine - 1 ∧
        (jsSplitNl content).getD j "" = h.conflictMarkers.separator := by
  have hparse : parseConflictHunks content = expectedHunks 0 ps := by
    rw [parseConflictHunks, parseLines, hsplit]
    exact parseGo_flat ps trail hwf hbase 0
  refine ⟨by rw [hparse, expectedHunks_length], ?_⟩
  intro h hh
  rw [hparse] at hh
  rw [hsplit]
  have hpos := expectedHunks_positions ps trail hbase [] h
  simp only [List.length_nil, List.nil_append] at hpos
  exact hpos hh

/-- The concrete two-way conflict file used to instantiate the amended C1. -/
def twoWayRegionEx : ConflictRegion :=
  { startMark := "<<<<<<< HEAD", cur := ["ours"], base := none,
    sepMark := "=======", inc := ["theirs"], endMark := ">>>>>>> feature" }

theorem parse_two_way_regions_exact_witness :
    (parseConflictHunks
      "intro\n<<<<<<< HEAD\nours\n=======\ntheirs\n>>>>>>> feature\noutro").length = 1 ∧
    ∀ h ∈ parseConflictHunks
        "intro\n<<<<<<< HEAD\nours\n=======\ntheirs\n>>>>>>> feature\noutro",
      h.startLine ≤ h.endLine ∧
      (jsSplitNl
        "intro\n<<<<<<< HEAD\nours\n=======\ntheirs\n>>>>>>> feature\noutro").getD
          (h.startLine - 1) "" = h.conflictMarkers.start ∧
      (jsSplitNl
        "intro\n<<<<<<< HEAD\nours\n=======\ntheirs\n>>>>>>> feature\noutro").getD
          (h.endLine - 1) "" = h.conflictMarkers.endMarker ∧
      ∃ j, h.startLine - 1 < j ∧ j < h.endLine - 1 ∧
        (jsSplitNl
          "intro\n<<<<<<< HEAD\nours\n=======\ntheirs\n>>>>>>> feature\noutro").getD
            j "" = h.conflictMarkers.separator :=
  parse_two_way_regions_exact _ [(["intro"], twoWayRegionEx)] ["outro"]
    (by decide) (by decide) (by decide)

/-- The concrete well-formed *three-way* region on which C1, as stated,
fails: the file consists of exactly this one region, yet the parser
returns no hunks at all. -/
def baseRegionEx : ConflictRegion :=
  { startMark := "<<<<<<< ours", cur := ["alpha"],
    base := some ("||||||| ancestor", ["common"]),
    sepMark := "=======", inc := ["beta"], endMark := ">>>>>>> theirs" }

/-- **C1 counterexample.** A file containing exactly one well-formed
conflict region (three-way style, with a `|||||||` base separator) for
which `parseConflictHunks` returns `0` hunks instead of `1`. -/
theorem parse_claim_fails_on_base_region :
    DecompWF [([], baseRegionEx)] [] ∧
    jsSplitNl "<<<<<<< ours\nalpha\n||||||| ancestor\ncommon\n=======\nbeta\n>>>>>>> theirs"
      = flatFile [([], baseRegionEx)] [] ∧
    ([(([] : List String), baseRegionEx)]).length = 1 ∧
    (parseConflictHunks
      "<<<<<<< ours\nalpha\n||||||| ancestor\ncommon\n=======\nbeta\n>>>>>>> theirs").length
      = 0 := by
  exact ⟨by decide, by decide, rfl, by decide⟩

/-- The concrete three-way region exercising claim C2. -/
def threeWayRegionEx : ConflictRegion :=
  { startMark := "<<<<<<< HEAD", cur := ["mine"],
    base := some ("||||||| merged common ancestors", ["origin"]),
    sepMark := "=======", inc := ["yours"], endMark := ">>>>>>> branch" }

/-- **C2 (code bug).** For a well-formed three-way conflict region with a
`|||||||` base separator, the claim (and the spec's state machine) expect
one hunk carrying `baseContent`; the code instead emits *no* hunk, because
after the inner base loop stops at the `=======` line the outer loop's
`i++` skips past it, so the emission guard is never reached. -/
theorem parse_drops_three_way_hunk :
    ConflictRegion.WF threeWayRegionEx ∧
    threeWayRegionEx.base.isSome = true ∧
    jsSplitNl "<<<<<<< HEAD\nmine\n||||||| merged common ancestors\norigin\n=======\nyours\n>>>>>>> branch"
      = threeWayRegionEx.lines ∧
    parseConflictHunks
      "<<<<<<< HEAD\nmine\n||||||| merged common ancestors\norigin\n=======\nyours\n>>>>>>> branch"
      = [] := by
  exact ⟨by decide, by decide, by decide, by decide⟩

/-! ## Classifier (`@smugit/shared` helpers and `GitAnalyzer`) -/

/-- The shared `ConflictType` enum; the TS member `IMPORT` is `imports`
here because `import` is reserved in Lean. -/
inductive ConflictType where
  | content
  | whitespace
  | imports
  | structural
  | semantic
deriving DecidableEq, Repr

/-- The shared `ConflictComplexity` enum. -/
inductive ConflictComplexity where
  | trivial
  | simple
  | moderate
  | complex
deriving DecidableEq, Repr

/-- JS `\w`: ASCII letters, digits and underscore. -/
def isWordChar (c : Char) : Bool :=
  c.isAlpha || c.isDigit || c = '_'

/-- Tests a pattern at every position of a character list, also passing the
preceding character (needed for `\b` word boundaries). -/
def scanWithPrev (p : Option Char → List Char → Bool) : Option Char → List Char → Bool
  | prev, [] => p prev []
  | prev, c :: cs => p prev (c :: cs) || scanWithPrev p (some c) cs

/-- `\bw\b` at one position: the word, with non-word characters (or the
string ends) on both sides. -/
def matchWordAt (w : List Char) (prev : Option Char) (cs : List Char) : Bool :=
  w.isPrefixOf cs &&
  (match prev with
   | none => true
   | some c => !isWordChar c) &&
  (match cs.drop w.length with
   | [] => true
   | c :: _ => !isWordChar c)

/-- `/\bw\b/.test(content)` for a single word `w`. -/
def containsWord (content : String) (w : String) : Bool :=
  scanWithPrev (matchWordAt w.data) none content.data

/-- Tests an anchored pattern at every position (for regexes without `^`). -/
def scanPositions (p : List Char → Bool) (s : String) : Bool :=
  scanWithPrev (fun _ cs => p cs) none s.data

/-- `/function\s*\(/` at one position. -/
def matchFunctionCall (cs : List Char) : Bool :=
  "function".data.isPrefixOf cs &&
  (match (cs.drop 8).dropWhile isJsWhitespace with
   | '(' :: _ => true
   | _ => false)

/-- `/=>\s*\x7b/` at one position. -/
def matchArrowBrace (cs : List Char) : Bool :=
  "=>".data.isPrefixOf cs &&
  (match (cs.drop 2).dropWhile isJsWhitespace with
   | c :: _ => c = '\x7b'
   | _ => false)

/-- `/class\s+\w+/` at one position. -/
def matchClassDecl (cs : List Char) : Bool :=
  "class".data.isPrefixOf cs &&
  (match cs.drop 5 with
   | c :: _ =>
     isJsWhitespace c &&
       (match (cs.drop 5).dropWhile isJsWhitespace with
        | d :: _ => isWordChar d
        | [] => false)
   | [] => false)

/-- `/async\s+/` at one position. -/
def matchAsyncKw (cs : List Char) : Bool :=
  "async".data.isPrefixOf cs &&
  (match cs.drop 5 with
   | c :: _ => isJsWhitespace c
   | [] => false)

/-- `hasComplexLogic` from the shared helpers: any of the control-flow
keywords as whole words, a `function(`, an arrow function body, a class
declaration, or an `async` marker. -/
def hasComplexLogic (content : String) : Bool :=
  containsWord content "if" || containsWord content "else" ||
  containsWord content "for" || containsWord content "while" ||
  containsWord content "switch" || containsWord content "try" ||
  containsWord content "catch" ||
  scanPositions matchFunctionCall content ||
  scanPositions matchArrowBrace content ||
  scanPositions matchClassDecl content ||
  scanPositions matchAsyncKw content

/-- `isWhitespaceOnly`: equality after collapsing whitespace runs and
trimming. -/
def isWhitespaceOnly (content1 content2 : String) : Bool :=
  jsTrim (collapseWs content1) == jsTrim (collapseWs content2)

/-- `analyzeConflictComplexity` from the shared helpers. -/
def analyzeConflictComplexity (currentContent incomingContent : String) : ConflictComplexity :=
  let currentLines := (jsSplitNl currentContent).length
  let incomingLines := (jsSplitNl incomingContent).length
  let totalLines := max currentLines incomingLines
  if decide (totalLines ≤ 1) || isWhitespaceOnly currentContent incomingContent then
    ConflictComplexity.trivial
  else if decide (totalLines ≤ 5) && !hasComplexLogic currentContent &&
      !hasComplexLogic incomingContent then
    ConflictComplexity.simple
  else if totalLines ≤ 20 then
    ConflictComplexity.moderate
  else
    ConflictComplexity.complex

/-- `GitAnalyzer.determineOverallComplexity`: empty hunk lists are trivial,
otherwise the highest complexity over all hunks. -/
def determineOverallComplexity (hunks : List ConflictHunk) : ConflictComplexity :=
  if hunks.length = 0 then ConflictComplexity.trivial
  else
    let complexities :=
      hunks.map fun h => analyzeConflictComplexity h.currentContent h.incomingContent
    if complexities.contains ConflictComplexity.complex then ConflictComplexity.complex
    else if complexities.contains ConflictComplexity.moderate then ConflictComplexity.moderate
    else if complexities.contains ConflictComplexity.simple then ConflictComplexity.simple
    else ConflictComplexity.trivial

/-- `isSubsetLines` (identical in `GitAnalyzer` and `builtin.ts`): every
non-blank trimmed source line occurs among the non-blank trimmed target
lines (vacuously true when no source line remains, as in the source's
early return). -/
def isSubsetLines (source target : List String) : Bool :=
  let targetSet := (target.map jsTrim).filter fun l => !(l == "")
  let meaningfulSource := (source.map jsTrim).filter fun l => !(l == "")
  meaningfulSource.all fun l => targetSet.contains l

/-- The bullet pattern `/^\s*(?:[-*+]|\d+\.)\s+/` at the start of a line. -/
def matchesBulletLine (s : String) : Bool :=
  let r := s.data.dropWhile isJsWhitespace
  match r with
  | [] => false
  | c :: rest =>
    if c = '-' || c = '*' || c = '+' then
      match rest with
      | d :: _ => isJsWhitespace d
      | [] => false
    else if c.isDigit then
      match r.dropWhile Char.isDigit with
      | '.' :: d :: _ => isJsWhitespace d
      | _ => false
    else false

/-- Loop of `isLikelyList`: blank lines are skipped, a non-bullet line
fails, and at least one entry is required. -/
def isLikelyListGo : List String → Bool → Bool
  | [], hasEntries => hasEntries
  | line :: rest, hasEntries =>
    let trimmed := jsTrim line
    if trimmed == "" then isLikelyListGo rest hasEntries
    else if !matchesBulletLine trimmed then false
    else isLikelyListGo rest true

/-- `isLikelyList` (identical in `GitAnalyzer` and `builtin.ts`). -/
def isLikelyList (lines : List String) : Bool :=
  isLikelyListGo lines false

/-- Characters allowed in a key by `/[\w.-]+/`. -/
def isKeyDotDash (c : Char) : Bool :=
  isWordChar c || c = '.' || c = '-'

/-- The key-value pattern `/^\s*["']?[\w.-]+["']?\s*[:=]/` at the start of
a line: optional whitespace, an optionally quoted key, optional
whitespace, then `:` or `=`. -/
def matchesKvLine (s : String) : Bool :=
  let r := s.data.dropWhile isJsWhitespace
  let afterQuote :=
    match r with
    | c :: rest => if c = '"' || c = '\'' then rest else r
    | [] => []
  if (afterQuote.takeWhile isKeyDotDash).isEmpty then false
  else
    let afterKey := afterQuote.dropWhile isKeyDotDash
    let afterQuote2 :=
      match afterKey with
      | c :: rest => if c = '"' || c = '\'' then rest else afterKey
      | [] => []
    match afterQuote2.dropWhile isJsWhitespace with
    | c :: _ => c = ':' || c = '='
    | [] => false

/-- Loop of `isKeyValueBlock`, same shape as `isLikelyListGo`. -/
def isKeyValueBlockGo : List String → Bool → Bool
  | [], hasEntries => hasEntries
  | line :: rest, hasEntries =>
    let trimmed := jsTrim line
    if trimmed == "" then isKeyValueBlockGo rest hasEntries
    else if !matchesKvLine trimmed then false
    else isKeyValueBlockGo rest true

/-- `isKeyValueBlock` (identical in `GitAnalyzer` and `builtin.ts`). -/
def isKeyValueBlock (lines : List String) : Bool :=
  isKeyValueBlockGo lines false

/-- `GitAnalyzer.isSimpleContentPattern`: the §4.4 shape test, checked
without performing the merge.  Note it normalizes with `collapseWs` (runs
of whitespace to one space), unlike the builtin plugin's
`normalizeWhitespace`. -/
def isSimpleContentPattern (h : ConflictHunk) : Bool :=
  let trimmedCurrent := jsTrim h.currentContent
  let trimmedIncoming := jsTrim h.incomingContent
  if trimmedCurrent == "" || trimmedIncoming == "" then true
  else if trimmedCurrent == trimmedIncoming then true
  else if collapseWs trimmedCurrent == collapseWs trimmedIncoming then true
  else
    let currentLines := jsSplitNl h.currentContent
    let incomingLines := jsSplitNl h.incomingContent
    if isSubsetLines currentLines incomingLines ||
        isSubsetLines incomingLines currentLines then true
    else if isLikelyList currentLines && isLikelyList incomingLines then true
    else if isKeyValueBlock currentLines && isKeyValueBlock incomingLines then true
    else false

/-- `GitAnalyzer.canAutoResolveContent`. -/
def canAutoResolveContent (hunks : List ConflictHunk) : Bool :=
  hunks.all isSimpleContentPattern

/-- `TRIVIAL_AUTO_TYPES` from the shared helpers. -/
def TRIVIAL_AUTO_TYPES : List ConflictType :=
  [ConflictType.whitespace, ConflictType.imports, ConflictType.structural]

/-- `isAutoResolvable` from the shared helpers. -/
def isAutoResolvable (t : ConflictType) (complexity : ConflictComplexity) : Bool :=
  if complexity = ConflictComplexity.trivial then TRIVIAL_AUTO_TYPES.contains t
  else if complexity = ConflictComplexity.simple ∧
      (t = ConflictType.whitespace ∨ t = ConflictType.imports ∨
        t = ConflictType.structural) then true
  else false

/-- The `autoResolvable` flag computed in `GitAnalyzer.analyzeFileConflict`
(lines 278-295): the base table, or — only for CONTENT conflicts whose
complexity is not COMPLEX — the per-hunk simple-content test. -/
def analyzeAutoResolvable (t : ConflictType) (hunks : List ConflictHunk) : Bool :=
  let complexity := determineOverallComplexity hunks
  let baseAutoResolvable := isAutoResolvable t complexity
  let contentAutoResolvable :=
    if t = ConflictType.content ∧ complexity ≠ ConflictComplexity.complex then
      canAutoResolveContent hunks
    else false
  baseAutoResolvable || contentAutoResolvable

/-! ## Claim C3 -/

/-- **C3 (amended).** The auto-resolvability flag satisfies: complexity
TRIVIAL with type WHITESPACE is auto-resolvable; complexity SIMPLE with
type STRUCTURAL is auto-resolvable; a CONTENT conflict whose complexity is
COMPLEX is *never* auto-resolvable (the claimed per-hunk test is not
consulted there); and a CONTENT conflict whose complexity is not COMPLEX
is auto-resolvable exactly when every hunk passes the simple-content
test. -/
theorem autoResolvable_table :
    (∀ hunks, determineOverallComplexity hunks = ConflictComplexity.trivial →
      analyzeAutoResolvable ConflictType.whitespace hunks = true) ∧
    (∀ hunks, determineOverallComplexity hunks = ConflictComplexity.simple →
      analyzeAutoResolvable ConflictType.structural hunks = true) ∧
    (∀ hunks, determineOverallComplexity hunks = ConflictComplexity.complex →
      analyzeAutoResolvable ConflictType.content hunks = false) ∧
    (∀ hunks, determineOverallComplexity hunks ≠ ConflictComplexity.complex →
      analyzeAutoResolvable ConflictType.content hunks = canAutoResolveContent hunks) := by
  refine ⟨?_, ?_, ?_, ?_⟩ <;> intro hunks h <;>
    simp [analyzeAutoResolvable, h, isAutoResolvable, TRIVIAL_AUTO_TYPES]

/-- Hunk constructor for concrete classifier inputs (marker fields are
irrelevant to classification). -/
def mkContentHunk (cur inc : String) : ConflictHunk :=
  { startLine := 1, endLine := 5, baseContent := "", currentContent := cur,
    incomingContent := inc,
    conflictMarkers :=
      { start := "<<<<<<< a", separator := "=======", endMarker := ">>>>>>> b" } }

/-- A CONTENT hunk of 21/22 lines (hence COMPLEX) whose current lines all
occur among the incoming lines, so it passes the simple-content test. -/
def complexContentHunk : ConflictHunk :=
  mkContentHunk (String.intercalate "\n" (List.replicate 21 "alpha"))
    (String.intercalate "\n" (List.replicate 21 "alpha") ++ "\nbeta")

/-- **C3 counterexample.** A CONTENT conflict with complexity COMPLEX whose
every hunk passes the simple-content-pattern test, yet the computed
`autoResolvable` flag is `false` — the claimed (COMPLEX, CONTENT) row is
wrong. -/
theorem autoResolvable_complex_content_false :
    determineOverallComplexity [complexContentHunk] = ConflictComplexity.complex ∧
    canAutoResolveContent [complexContentHunk] = true ∧
    analyzeAutoResolvable ConflictType.content [complexContentHunk] = false := by
  exact ⟨by decide, by decide, by decide⟩

theorem autoResolvable_table_witness :
    analyzeAutoResolvable ConflictType.whitespace [mkContentHunk "x" "x"] = true ∧
    analyzeAutoResolvable ConflictType.structural [mkContentHunk "a\nb" "a\nc"] = true ∧
    analyzeAutoResolvable ConflictType.content [complexContentHunk] = false ∧
    analyzeAutoResolvable ConflictType.content [mkContentHunk "a\nb\nc\nd\ne\nf" "x"]
      = canAutoResolveContent [mkContentHunk "a\nb\nc\nd\ne\nf" "x"] :=
  ⟨autoResolvable_table.1 _ (by decide),
   autoResolvable_table.2.1 _ (by decide),
   autoResolvable_table.2.2.1 _ (by decide),
   autoResolvable_table.2.2.2 _ (by decide)⟩

/-! ## Builtin simple-content merge (`builtin.ts`) -/

/-- `content.replace(/\t/g, '  ')`. -/
def expandTabs (s : String) : String :=
  ⟨(s.data.map fun c => if c = '\t' then [' ', ' '] else [c]).flatten⟩

/-- Removes the trailing run of space characters of one line
(`/[ ]+$/`). -/
def stripTrailSpaces (line : String) : String :=
  ⟨(line.data.reverse.dropWhile fun c => c = ' ').reverse⟩

/-- `content.replace(/[ ]+$/gm, '')`: per line, drop trailing spaces. -/
def stripTrailingSpacesPerLine (s : String) : String :=
  String.intercalate "\n" ((jsSplitNl s).map stripTrailSpaces)

/-- Worker for `collapseBlankRuns`: `pending` counts the newlines of the
current run; a run of `k` newlines is emitted as `min k 2` newlines, which
is exactly `/\n{3,}/g → "\n\n"`. -/
def collapseNlAux : Nat → List Char → List Char
  | pending, [] => List.replicate (min pending 2) '\n'
  | pending, c :: cs =>
    if c = '\n' then collapseNlAux (pending + 1) cs
    else List.replicate (min pending 2) '\n' ++ (c :: collapseNlAux 0 cs)

/-- `content.replace(/\n{3,}/g, '\n\n')`. -/
def collapseBlankRuns (s : String) : String :=
  ⟨collapseNlAux 0 s.data⟩

/-- `normalizeWhitespace` from `builtin.ts`: tabs to two spaces, strip
trailing spaces per line, collapse three or more newlines to two.  This is
*not* the run-collapsing `collapseWs` used by the analyzer's shape
test. -/
def normalizeWhitespace (s : String) : String :=
  collapseBlankRuns (stripTrailingSpacesPerLine (expandTabs s))

/-- `joinLines` from `builtin.ts`. -/
def joinLines (lines : List String) : String :=
  String.intercalate "\n" lines

/-- One `pushLine` step of `mergeListLines`: blank lines are kept verbatim
and never deduplicated; other lines are deduplicated by trimmed text and
kept trimmed at the end.  The second component is the `seen` set. -/
def mergeListPush (st : List String × List String) (line : String) :
    List String × List String :=
  if jsTrim line == "" then (st.1 ++ [line], st.2)
  else if st.2.contains (jsTrim line) then st
  else (st.1 ++ [jsTrimEnd line], st.2 ++ [jsTrim line])

/-- `mergeListLines` from `builtin.ts`. -/
def mergeListLines (currentLines incomingLines : List String) : String :=
  joinLines ((currentLines ++ incomingLines).foldl mergeListPush ([], [])).1

/-- The `KeyValueEntry` interface; the TS field `prefix` is `pre` here (the
word is reserved by this development's tooling), and the optional TS field
`raw?` is a plain `Bool` with `false` for absent. -/
structure KeyValueEntry where
  key : String
  pre : String
  value : String
  suffix : String
  line : String
  raw : Bool
deriving DecidableEq, Repr

/-- Length of the longest suffix of `cs` matching `\s*,?\s*`; because the
value group `(.*?)` is lazy, the third group of the key-value regex
captures exactly this suffix. -/
def kvSuffixLen (cs : List Char) : Nat :=
  let rev := cs.reverse
  let w2 := rev.takeWhile isJsWhitespace
  match rev.drop w2.length with
  | ',' :: rest2 => w2.length + 1 + (rest2.takeWhile isJsWhitespace).length
  | _ => w2.length

/-- Characters JS `.` does not match (line terminators). -/
def isLineTerminator (c : Char) : Bool :=
  c = '\n' || c = '\r' || c.toNat = 0x2028 || c.toNat = 0x2029

/-- `parseKeyValueLine` from `builtin.ts`: matches
`/^(\s*["']?[\w.-]+["']?\s*[:=]\s*)(.*?)(\s*,?\s*)$/` by direct scanning.
Every quantified piece of the prefix is effectively greedy (no character
class overlaps its successor, so backtracking cannot rescue a failed
greedy parse), the lazy value group takes the complement of the longest
`\s*,?\s*` suffix, and a match fails if the value would have to cover a
line terminator (JS `.`).  The second regex of the source,
`/["']?([\w.-]+)["']?\s*[:=]\s*$/` applied to the captured first group,
always re-extracts the same key run, which is returned directly. -/
def parseKeyValueLine (line : String) : Option KeyValueEntry :=
  let cs := line.data
  let ws1 := cs.takeWhile isJsWhitespace
  let r1 := cs.dropWhile isJsWhitespace
  let q1 : List Char :=
    match r1 with
    | c :: _ => if c = '"' || c = '\'' then [c] else []
    | [] => []
  let r2 := r1.drop q1.length
  let key := r2.takeWhile isKeyDotDash
  if key.isEmpty then none
  else
    let r3 := r2.dropWhile isKeyDotDash
    let q2 : List Char :=
      match r3 with
      | c :: _ => if c = '"' || c = '\'' then [c] else []
      | [] => []
    let r4 := r3.drop q2.length
    let ws2 := r4.takeWhile isJsWhitespace
    let r5 := r4.dropWhile isJsWhitespace
    match r5 with
    | c :: r6 =>
      if c = ':' || c = '=' then
        let ws3 := r6.takeWhile isJsWhitespace
        let r7 := r6.dropWhile isJsWhitespace
        let sufLen := kvSuffixLen r7
        let value := r7.take (r7.length - sufLen)
        let suffix := r7.drop (r7.length - sufLen)
        if value.any isLineTerminator then none
        else
          some { key := ⟨key⟩
                 pre := ⟨ws1 ++ q1 ++ key ++ q2 ++ ws2 ++ (c :: ws3)⟩
                 value := ⟨value⟩
                 suffix := ⟨suffix⟩
                 line := line
                 raw := false }
      else none
    | [] => none

/-- `Map.prototype.set`: replace in place if the key exists, else append
(insertion order preserved). -/
def kvSetEntry (entries : List (String × KeyValueEntry)) (k : String) (e : KeyValueEntry) :
    List (String × KeyValueEntry) :=
  if entries.any (fun p => p.1 == k) then
    entries.map fun p => if p.1 == k then (k, e) else p
  else entries ++ [(k, e)]

/-- `Map.prototype.get`. -/
def kvGetEntry (entries : List (String × KeyValueEntry)) (k : String) :
    Option KeyValueEntry :=
  (entries.find? fun p => p.1 == k).map (·.2)

/-- `processLine` from `mergeKeyValueLines`; `none` models `return false`
(a non-blank line that is not a key-value line). -/
def kvProcessLine (st : List (String × KeyValueEntry) × List String)
    (line : String) (preferIncoming : Bool) :
    Option (List (String × KeyValueEntry) × List String) :=
  let (entries, order) := st
  if jsTrim line == "" then
    let placeholder := "__blank__" ++ toString order.length
    let e : KeyValueEntry :=
      { key := placeholder, pre := "", value := "", suffix := "", line := line, raw := true }
    if !(entries.any fun p => p.1 == placeholder) then
      some (entries ++ [(placeholder, e)], order ++ [placeholder])
    else if preferIncoming then
      some (kvSetEntry entries placeholder e, order)
    else
      some (entries, order)
  else
    match parseKeyValueLine line with
    | none => none
    | some parsed =>
      if !(entries.any fun p => p.1 == parsed.key) then
        some (entries ++ [(parsed.key, parsed)], order ++ [parsed.key])
      else if preferIncoming then
        some (kvSetEntry entries parsed.key parsed, order)
      else
        some (entries, order)

/-- The per-side loop of `mergeKeyValueLines` (`return undefined` on the
first unparsable line). -/
def kvProcessAll (preferIncoming : Bool) :
    List String → List (String × KeyValueEntry) × List String →
    Option (List (String × KeyValueEntry) × List String)
  | [], st => some st
  | l :: ls, st =>
    match kvProcessLine st l preferIncoming with
    | none => none
    | some st' => kvProcessAll preferIncoming ls st'

/-- `s.endsWith(',')`. -/
def jsEndsWithComma (s : String) : Bool :=
  match s.data.reverse with
  | ',' :: _ => true
  | _ => false

/-- `s.replace(/,\s*$/, '')`: drop one trailing comma together with the
whitespace after it (the only position the pattern can match). -/
def dropCommaWsEnd (s : String) : String :=
  let rev := s.data.reverse
  match rev.dropWhile isJsWhitespace with
  | ',' :: rest => ⟨rest.reverse⟩
  | _ => s

/-- `mergeKeyValueLines` from `builtin.ts`: current lines first (current
wins insertion order), incoming lines second (incoming wins values); when
some structured key is quoted (`isJsonStyle`, tested on the captured
prefix) trailing commas are normalized so that every structured entry but
the last ends with one. -/
def mergeKeyValueLines (currentLines incomingLines : List String) : Option String :=
  match kvProcessAll false currentLines ([], []) with
  | none => none
  | some st1 =>
    match kvProcessAll true incomingLines st1 with
    | none => none
    | some (entries, order) =>
      let structuredKeys := order.filter fun k =>
        match kvGetEntry entries k with
        | some e => !e.raw
        | none => false
      let lastStructuredKey := structuredKeys.getLast?
      let isJsonStyle := structuredKeys.any fun k =>
        match kvGetEntry entries k with
        | some e => e.pre.data.contains '"'
        | none => false
      some (joinLines (order.map fun k =>
        match kvGetEntry entries k with
        | none => ""
        | some e =>
          if e.raw then e.line
          else
            let suffix1 :=
              if isJsonStyle ∧ lastStructuredKey ≠ some k ∧
                  !(jsEndsWithComma (jsTrim e.suffix)) then
                jsTrimEnd e.suffix ++ ","
              else e.suffix
            let suffix2 :=
              if isJsonStyle ∧ lastStructuredKey = some k ∧
                  jsEndsWithComma (jsTrim suffix1) then
                dropCommaWsEnd suffix1
              else suffix1
            jsTrimEnd (e.pre ++ e.value ++ suffix2)))

/-- `computeContentReplacement` from `builtin.ts`, per hunk (the source
fetches `conflict.hunks[hunkIndex]` first and then only uses the hunk). -/
def computeContentReplacement (hunk : ConflictHunk) : Option String :=
  let trimmedCurrent := jsTrim hunk.currentContent
  let trimmedIncoming := jsTrim hunk.incomingContent
  if trimmedCurrent == "" && trimmedIncoming == "" then some ""
  else if trimmedCurrent == "" then some hunk.incomingContent
  else if trimmedIncoming == "" then some hunk.currentContent
  else if trimmedCurrent == trimmedIncoming then some hunk.currentContent
  else
    let normalizedCurrent := normalizeWhitespace trimmedCurrent
    let normalizedIncoming := normalizeWhitespace trimmedIncoming
    if normalizedCurrent == normalizedIncoming then
      some (normalizeWhitespace hunk.currentContent)
    else
      let currentLines := jsSplitNl hunk.currentContent
      let incomingLines := jsSplitNl hunk.incomingContent
      if isSubsetLines currentLines incomingLines then some (joinLines incomingLines)
      else if isSubsetLines incomingLines currentLines then some (joinLines currentLines)
      else if isLikelyList currentLines && isLikelyList incomingLines then
        some (mergeListLines currentLines incomingLines)
      else if isKeyValueBlock currentLines && isKeyValueBlock incomingLines then
        mergeKeyValueLines currentLines incomingLines
      else none

/-! ## Claims C8 and C9 -/

/-- **C8 (amended).** For every hunk whose trimmed current and incoming
contents are nonempty, different, but equal after the plugin's
`normalizeWhitespace` (tabs to two spaces, trailing spaces stripped per
line, runs of three or more newlines collapsed to two), the computed
replacement is `normalizeWhitespace` applied to the raw current
content. -/
theorem normalized_equal_replacement (h : ConflictHunk)
    (h1 : jsTrim h.currentContent ≠ "") (h2 : jsTrim h.incomingContent ≠ "")
    (h3 : jsTrim h.currentContent ≠ jsTrim h.incomingContent)
    (h4 : normalizeWhitespace (jsTrim h.currentContent)
        = normalizeWhitespace (jsTrim h.incomingContent)) :
    computeContentReplacement h = some (normalizeWhitespace h.currentContent) := by
  simp only [computeContentReplacement, beq_iff_eq, h4]
  simp [h1, h2, h3]

theorem normalized_equal_replacement_witness :
    computeContentReplacement (mkContentHunk "a\tb" "a  b")
      = some (normalizeWhitespace "a\tb") :=
  normalized_equal_replacement (mkContentHunk "a\tb" "a  b")
    (by decide) (by decide) (by decide) (by decide)

/-- **C8 counterexample.** A hunk whose trimmed sides become equal after
collapsing every whitespace run to a single space (the claim's
normalization), yet the computed replacement is `none`: the code's
normalization step uses `normalizeWhitespace`, which does not collapse
space runs, and no later branch of the heuristic matches either. -/
theorem collapse_equal_no_replacement :
    collapseWs (jsTrim "a b") = collapseWs (jsTrim "a  b") ∧
    computeContentReplacement (mkContentHunk "a b" "a  b") = none := by
  exact ⟨by decide, by decide⟩

/-- **C9 (amended).** The key-value merge of current `["a: 1,", "b: 2,"]`
and incoming `["b: 3,", "c: 4,"]` yields entries in key order a, b, c with
b's value taken from incoming (3); every output line — including the last
— ends with a comma, because the trailing-comma normalization only runs
when some key is quoted (JSON style), which is not the case here. -/
theorem keyValue_merge_example :
    mergeKeyValueLines ["a: 1,", "b: 2,"] ["b: 3,", "c: 4,"]
      = some (joinLines ["a: 1,", "b: 3,", "c: 4,"]) := by
  decide

/-- **C9 counterexample.** On the claim's own input the last output line is
`"c: 4,"`, which still ends with a comma, contradicting "the last does
not". -/
theorem keyValue_merge_last_comma :
    mergeKeyValueLines ["a: 1,", "b: 2,"] ["b: 3,", "c: 4,"]
      = some "a: 1,\nb: 3,\nc: 4," ∧
    jsEndsWithComma "c: 4," = true := by
  exact ⟨by decide, by decide⟩

/-! ## Plugins, registry and resolver (`registry.ts`, `ConflictResolver`) -/

/-- The shared `GitConflict` interface. -/
structure GitConflict where
  file : String
  type : ConflictType
  hunks : List ConflictHunk
  complexity : ConflictComplexity
  explanation : Option String
  autoResolvable : Bool

/-- Outcome of one `plugin.resolve` call: a `PluginResolution` (content
plus notes; the optional TS `notes?` is `[]` when absent), `declined`
(TS `null`), or a thrown exception — `threw e` carries the string JS
would interpolate for the thrown value. -/
inductive ResolveOutcome where
  | resolved (content : String) (notes : List String)
  | declined
  | threw (e : String)

/-- A `ConflictResolutionPlugin`.  In place of the
`ConflictResolutionContext`, `resolve` receives the current content of the
conflict's own file, which is all the context supplies to the builtin
plugins (a file missing from the model file system is passed as `""`). -/
structure Plugin where
  name : String
  priority : Option Int
  supports : GitConflict → Bool
  resolve : GitConflict → String → ResolveOutcome

/-- `registerConflictResolutionPlugin`: `Map.set` keyed by name — replace
in place when the name exists, else append (insertion order preserved). -/
def registerConflictResolutionPlugin (registry : List Plugin) (p : Plugin) : List Plugin :=
  if registry.any (fun q => q.name == p.name) then
    registry.map fun q => if q.name == p.name then p else q
  else registry ++ [p]

/-- `plugin.priority ?? 100`. -/
def pluginPriority (p : Plugin) : Int :=
  p.priority.getD 100

/-- Stable insertion into a priority-sorted list: the new element goes
before the first element of greater-or-equal... (strictly: before the
first element it is `≤`), so earlier-registered plugins stay first among
equal priorities. -/
def sortedInsertPlugin (p : Plugin) : List Plugin → List Plugin
  | [] => [p]
  | q :: qs =>
    if pluginPriority p ≤ pluginPriority q then p :: q :: qs
    else q :: sortedInsertPlugin p qs

/-- `getConflictResolutionPlugins`: the registry's values sorted ascending
by `priority ?? 100`.  JS `Array.prototype.sort` is stable and a stable
sort by a total preorder has a unique result, which this insertion sort
computes. -/
def getConflictResolutionPlugins : List Plugin → List Plugin
  | [] => []
  | p :: ps => sortedInsertPlugin p (getConflictResolutionPlugins ps)

/-- The model file system: an association list from paths to contents. -/
structure FS where
  files : List (String × String)

/-- `fs.readFile` (as `Option`, `Option.none` for a missing file). -/
def FS.read (fs : FS) (path : String) : Option String :=
  (fs.files.find? fun e => e.1 == path).map (·.2)

/-- `fs.writeFile`: overwrite or create. -/
def FS.write (fs : FS) (path content : String) : FS :=
  if fs.files.any (fun e => e.1 == path) then
    ⟨fs.files.map fun e => if e.1 == path then (path, content) else e⟩
  else ⟨fs.files ++ [(path, content)]⟩

/-- Index of the first occurrence of `pat` as a contiguous sublist. -/
def firstOccur (pat : List Char) : List Char → Option Nat
  | [] => if pat.isEmpty then some 0 else none
  | c :: cs =>
    if pat.isPrefixOf (c :: cs) then some 0
    else (firstOccur pat cs).map (· + 1)

/-- One `content.replace(pattern, replacement)` where the pattern is
`escapeRegExp(start) + "[\s\S]*?" + escapeRegExp(end)` (flag `s`, no `g`):
the leftmost-shortest span from an occurrence of the literal start-marker
text to the next occurrence of the literal end-marker text is replaced;
when no such span exists the content is unchanged.  `escapeRegExp` makes
the markers literal, so this is plain substring search. -/
def replaceFirstSpan (content startMark endMark replacement : String) : String :=
  match firstOccur startMark.data content.data with
  | Option.none => content
  | Option.some i =>
    let afterStart := content.data.drop (i + startMark.data.length)
    match firstOccur endMark.data afterStart with
    | Option.none => content
    | Option.some j =>
      ⟨content.data.take i ++ replacement.data ++ afterStart.drop (j + endMark.data.length)⟩

/-- One `push` of `combineBothVersions`: skip blank segments, deduplicate
by whitespace-collapsed text, keep segments trimmed at the end.  The
second component is the `seen` set. -/
def combinePush (st : List String × List String) (segment : String) :
    List String × List String :=
  if jsTrim segment == "" then st
  else
    let normalized := jsTrim (collapseWs segment)
    if st.2.contains normalized then st
    else (st.1 ++ [jsTrimEnd segment], st.2 ++ [normalized])

/-- `ConflictResolver.combineBothVersions`. -/
def combineBothVersions (h : ConflictHunk) : String :=
  let st := combinePush (combinePush ([], []) h.currentContent) h.incomingContent
  joinLines st.1

/-- The CLI's fallback strategy argument. -/
inductive Fallback where
  | incoming
  | current
  | both
  | none
deriving DecidableEq, Repr

/-- The string value of the strategy (as interpolated into messages). -/
def Fallback.label : Fallback → String
  | .incoming => "incoming"
  | .current => "current"
  | .both => "both"
  | .none => "none"

/-- The hunk loop of `applyFallbackStrategy`; `Option.none` models the
switch's `default: return undefined` (reached only when the strategy is
`none`, and only if at least one hunk forces the switch to run). -/
def applyFallbackGo (strategy : Fallback) : List ConflictHunk → String → Option String
  | [], content => some content
  | h :: hs, content =>
    match (match strategy with
           | .incoming => some h.incomingContent
           | .current => some h.currentContent
           | .both => some (combineBothVersions h)
           | .none => Option.none) with
    | Option.none => Option.none
    | Option.some repl =>
      applyFallbackGo strategy hs
        (replaceFirstSpan content h.conflictMarkers.start h.conflictMarkers.endMarker repl)

/-- `ConflictResolver.applyFallbackStrategy`: read the conflicted file
(a missing file rejects, modeled with a fixed message) and replace each
hunk's marker-delimited span. -/
def applyFallbackStrategy (c : GitConflict) (strategy : Fallback) (fs : FS) :
    Except String (Option String) :=
  match fs.read c.file with
  | Option.none => Except.error ("ENOENT: no such file " ++ c.file)
  | Option.some content => Except.ok (applyFallbackGo strategy c.hunks content)

/-- What `runPlugins` returns on success: the merged content, the name of
the resolving plugin, and its notes. -/
structure PluginOutcome where
  content : String
  plugin : String
  notes : List String
deriving DecidableEq, Repr

/-- `ConflictResolver.runPlugins`: skip plugins whose `supports` is false,
take the first non-declined resolution, propagate a throw. -/
def runPluginsR (c : GitConflict) : List Plugin → String → Except String (Option PluginOutcome)
  | [], _ => .ok Option.none
  | p :: ps, content =>
    if p.supports c then
      match p.resolve c content with
      | .resolved s notes => .ok (some ⟨s, p.name, notes⟩)
      | .declined => runPluginsR c ps content
      | .threw e => .error e
    else runPluginsR c ps content

/-- The `ResolutionResult` interface. -/
structure ResolutionResult where
  success : Bool
  resolvedFiles : List String
  failedFiles : List String
  errors : List String
  fallbackApplied : List (String × Fallback)
  warnings : List String
  notes : List String
  resolvedBy : List (String × String × List String)
deriving Repr

/-- The fresh result `autoResolveConflicts` starts from. -/
def emptyResult : ResolutionResult :=
  { success := true, resolvedFiles := [], failedFiles := [], errors := [],
    fallbackApplied := [], warnings := [], notes := [], resolvedBy := [] }

/-- `Applied fallback strategy "&" to &. Review before committing.` -/
def fallbackWarningMsg (file : String) (strategy : Fallback) : String :=
  "Applied fallback strategy \"" ++ strategy.label ++ "\" to " ++ file ++
    ". Review before committing."

/-- `No automated strategy matched &.` -/
def noStrategyMsg (file : String) : String :=
  "No automated strategy matched " ++ file ++ "."

/-- `Failed to resolve &: &` (the catch branch). -/
def failedResolveMsg (file e : String) : String :=
  "Failed to resolve " ++ file ++ ": " ++ e

/-- One iteration of the `for (const conflict of conflicts)` loop of
`autoResolveConflicts`, including its `try`/`catch`: a plugin success is
recorded in `resolvedFiles`/`resolvedBy`/`notes` (and written unless dry
run); otherwise, with a non-`none` fallback, a *truthy* fallback string is
recorded in `resolvedFiles`/`fallbackApplied`/`warnings` (note the JS
`if (fallbackContent)` treats the empty string like `undefined`); a falsy
fallback result or no fallback records the no-strategy failure; a thrown
error is caught and recorded as a failure. -/
def resolveStep (plugins : List Plugin) (fb : Fallback) (dryRun : Bool)
    (fs : FS) (acc : ResolutionResult) (c : GitConflict) : ResolutionResult × FS :=
  match runPluginsR c plugins ((fs.read c.file).getD "") with
  | .error e =>
    ({ acc with failedFiles := acc.failedFiles ++ [c.file],
                errors := acc.errors ++ [failedResolveMsg c.file e],
                success := false }, fs)
  | .ok (Option.some outcome) =>
    ({ acc with resolvedFiles := acc.resolvedFiles ++ [c.file],
                resolvedBy := acc.resolvedBy ++ [(c.file, outcome.plugin, outcome.notes)],
                notes := acc.notes ++ outcome.notes.map fun n => c.file ++ ": " ++ n },
      if dryRun then fs else fs.write c.file outcome.content)
  | .ok Option.none =>
    if fb ≠ Fallback.none then
      match applyFallbackStrategy c fb fs with
      | .error e =>
        ({ acc with failedFiles := acc.failedFiles ++ [c.file],
                    errors := acc.errors ++ [failedResolveMsg c.file e],
                    success := false }, fs)
      | .ok (Option.some str) =>
        if str ≠ "" then
          ({ acc with resolvedFiles := acc.resolvedFiles ++ [c.file],
                      fallbackApplied := acc.fallbackApplied ++ [(c.file, fb)],
                      warnings := acc.warnings ++ [fallbackWarningMsg c.file fb] },
            if dryRun then fs else fs.write c.file str)
        else
          ({ acc with failedFiles := acc.failedFiles ++ [c.file],
                      errors := acc.errors ++ [noStrategyMsg c.file],
                      success := false }, fs)
      | .ok Option.none =>
        ({ acc with failedFiles := acc.failedFiles ++ [c.file],
                    errors := acc.errors ++ [noStrategyMsg c.file],
                    success := false }, fs)
    else
      ({ acc with failedFiles := acc.failedFiles ++ [c.file],
                  errors := acc.errors ++ [noStrategyMsg c.file],
                  success := false }, fs)

/-- The conflict loop of `autoResolveConflicts`. -/
def autoResolveGo (plugins : List Plugin) (fb : Fallback) (dryRun : Bool) :
    List GitConflict → FS → ResolutionResult → ResolutionResult × FS
  | [], fs, acc => (acc, fs)
  | c :: cs, fs, acc =>
    let step := resolveStep plugins fb dryRun fs acc c
    autoResolveGo plugins fb dryRun cs step.2 step.1

/-- `ConflictResolver.autoResolveConflicts`; the `plugins` parameter is the
registry's ordered view (`getConflictResolutionPlugins`), fetched once at
the start of the run. -/
def autoResolveConflicts (conflicts : List GitConflict) (dryRun : Bool)
    (fb : Fallback) (plugins : List Plugin) (fs : FS) : ResolutionResult × FS :=
  autoResolveGo plugins fb dryRun conflicts fs emptyResult

/-! ## Claim C5 -/

theorem mem_sortedInsertPlugin {x p : Plugin} {l : List Plugin} :
    x ∈ sortedInsertPlugin p l ↔ x = p ∨ x ∈ l := by
  induction l with
  | nil => simp [sortedInsertPlugin]
  | cons q qs ih =>
    simp only [sortedInsertPlugin]
    split
    · simp [or_comm, or_assoc, or_left_comm]
    · simp [ih]
      tauto

theorem sortedInsertPlugin_pairwise {p : Plugin} {l : List Plugin}
    (h : l.Pairwise fun a b => pluginPriority a ≤ pluginPriority b) :
    (sortedInsertPlugin p l).Pairwise fun a b => pluginPriority a ≤ pluginPriority b := by
  induction l with
  | nil => simp [sortedInsertPlugin]
  | cons q qs ih =>
    rw [List.pairwise_cons] at h
    obtain ⟨hq, hqs⟩ := h
    simp only [sortedInsertPlugin]
    split
    · rename_i hle
      exact List.Pairwise.cons
        (by
          intro x hx
          rcases List.mem_cons.mp hx with rfl | hx
          · exact hle
          · exact le_trans hle (hq x hx))
        (List.Pairwise.cons hq hqs)
    · rename_i hgt
      have hqp : pluginPriority q ≤ pluginPriority p := le_of_lt (lt_of_not_ge hgt)
      exact List.Pairwise.cons
        (by
          intro x hx
          rcases mem_sortedInsertPlugin.mp hx with rfl | hx
          · exact hqp
          · exact hq x hx)
        (ih hqs)

theorem filter_sortedInsertPlugin (p : Plugin) (l : List Plugin) (k : Int) :
    (sortedInsertPlugin p l).filter (fun q => decide (pluginPriority q = k))
      = if pluginPriority p = k
        then p :: l.filter (fun q => decide (pluginPriority q = k))
        else l.filter (fun q => decide (pluginPriority q = k)) := by
  induction l with
  | nil =>
    by_cases hpk : pluginPriority p = k <;> simp [sortedInsertPlugin, hpk]
  | cons q qs ih =>
    simp only [sortedInsertPlugin]
    split
    · by_cases hpk : pluginPriority p = k <;> simp [List.filter_cons, hpk]
    · rename_i hgt
      have hlt : pluginPriority q < pluginPriority p := lt_of_not_ge hgt
      by_cases hpk : pluginPriority p = k
      · have hqk : ¬ pluginPriority q = k := by omega
        simp [List.filter_cons, hqk, ih, hpk]
      · simp [List.filter_cons, ih, hpk]

theorem getConflictResolutionPlugins_pairwise (reg : List Plugin) :
    (getConflictResolutionPlugins reg).Pairwise
      fun a b => pluginPriority a ≤ pluginPriority b := by
  induction reg with
  | nil => simp [getConflictResolutionPlugins]
  | cons p ps ih =>
    exact sortedInsertPlugin_pairwise ih

theorem getConflictResolutionPlugins_filter (reg : List Plugin) (k : Int) :
    (getConflictResolutionPlugins reg).filter (fun q => decide (pluginPriority q = k))
      = reg.filter (fun q => decide (pluginPriority q = k)) := by
  induction reg with
  | nil => rfl
  | cons p ps ih =>
    simp only [getConflictResolutionPlugins, filter_sortedInsertPlugin, ih, List.filter_cons]
    by_cases hpk : pluginPriority p = k <;> simp [hpk]

/-- **C5.** The registry's ordered view is sorted ascending by priority
(part 1) with ties broken by registration order — stated as: for every
priority value, the plugins of that priority appear in exactly their
registration order (part 2); a plugin with unset priority sorts as
priority 100 (part 3); and whenever two registered plugins both support a
conflict and the lower-priority one resolves (does not decline), its
content is the one the resolution run uses, in either registration order
(part 4). -/
theorem plugin_priority_order :
    (∀ reg : List Plugin, (getConflictResolutionPlugins reg).Pairwise
      fun a b => pluginPriority a ≤ pluginPriority b) ∧
    (∀ (reg : List Plugin) (k : Int),
      (getConflictResolutionPlugins reg).filter (fun q => decide (pluginPriority q = k))
        = reg.filter (fun q => decide (pluginPriority q = k))) ∧
    (∀ p : Plugin, p.priority = Option.none → pluginPriority p = 100) ∧
    (∀ (p q : Plugin) (c : GitConflict) (content s : String) (notes : List String),
      p.supports c = true → q.supports c = true →
      pluginPriority p < pluginPriority q →
      p.resolve c content = .resolved s notes →
      p.name ≠ q.name →
      runPluginsR c (getConflictResolutionPlugins
          (registerConflictResolutionPlugin (registerConflictResolutionPlugin [] p) q))
          content = .ok (some ⟨s, p.name, notes⟩) ∧
      runPluginsR c (getConflictResolutionPlugins
          (registerConflictResolutionPlugin (registerConflictResolutionPlugin [] q) p))
          content = .ok (some ⟨s, p.name, notes⟩)) := by
  refine ⟨getConflictResolutionPlugins_pairwise, getConflictResolutionPlugins_filter,
    fun p h => by simp [pluginPriority, h], ?_⟩
  intro p q c content s notes hps hqs hlt hres hname
  have hqp : ¬ (pluginPriority q ≤ pluginPriority p) := not_le.mpr hlt
  have hreg1 : registerConflictResolutionPlugin (registerConflictResolutionPlugin [] p) q
      = [p, q] := by
    simp [registerConflictResolutionPlugin, beq_iff_eq, hname]
  have hreg2 : registerConflictResolutionPlugin (registerConflictResolutionPlugin [] q) p
      = [q, p] := by
    simp [registerConflictResolutionPlugin, beq_iff_eq, Ne.symm hname]
  constructor
  · rw [hreg1]
    simp [getConflictResolutionPlugins, sortedInsertPlugin, le_of_lt hlt,
      runPluginsR, hps, hres]
  · rw [hreg2]
    simp [getConflictResolutionPlugins, sortedInsertPlugin, hqp,
      runPluginsR, hps, hres]

/-- A minimal conflict for the registry witnesses (its fields are not
inspected by the constant plugins below). -/
def conflictEx : GitConflict :=
  { file := "ex.txt", type := ConflictType.content, hunks := [],
    complexity := ConflictComplexity.simple, explanation := Option.none,
    autoResolvable := false }

def pluginTen : Plugin :=
  { name := "ten", priority := some 10, supports := fun _ => true,
    resolve := fun _ _ => .resolved "TEN" ["from ten"] }

def pluginTwenty : Plugin :=
  { name := "twenty", priority := some 20, supports := fun _ => true,
    resolve := fun _ _ => .resolved "TWENTY" [] }

theorem plugin_priority_order_witness :
    runPluginsR conflictEx (getConflictResolutionPlugins
        (registerConflictResolutionPlugin
          (registerConflictResolutionPlugin [] pluginTen) pluginTwenty)) ""
      = .ok (some ⟨"TEN", "ten", ["from ten"]⟩) ∧
    runPluginsR conflictEx (getConflictResolutionPlugins
        (registerConflictResolutionPlugin
          (registerConflictResolutionPlugin [] pluginTwenty) pluginTen)) ""
      = .ok (some ⟨"TEN", "ten", ["from ten"]⟩) :=
  plugin_priority_order.2.2.2 pluginTen pluginTwenty conflictEx "" "TEN" ["from ten"]
    rfl rfl (by decide) rfl (by decide)

/-! ## Claim C4 -/

/-- **C4 (amended).** If a plugin's `supports` accepted a conflict but its
`resolve` then throws (the plugin-contract-violation scenario), the error
does *not* propagate out of the resolution run: the per-conflict
`try`/`catch` captures it, recording the conflict in `failedFiles` with a
`Failed to resolve` entry in `errors` and `success := false`; no fallback
is attempted for that conflict and the file system is untouched. -/
theorem plugin_throw_recorded (c : GitConflict) (plugins : List Plugin)
    (fb : Fallback) (dryRun : Bool) (fs : FS) (e : String)
    (h : runPluginsR c plugins ((fs.read c.file).getD "") = .error e) :
    autoResolveConflicts [c] dryRun fb plugins fs =
      ({ emptyResult with failedFiles := [c.file],
                          errors := [failedResolveMsg c.file e],
                          success := false }, fs) := by
  simp [autoResolveConflicts, autoResolveGo, resolveStep, h, emptyResult]

/-- A plugin whose `supports` claims every conflict but whose `resolve`
throws, as `simple-content-merge` does when a hunk yields no computable
replacement at resolve time. -/
def throwingPlugin : Plugin :=
  { name := "simple-content-merge", priority := some 30,
    supports := fun _ => true,
    resolve := fun _ _ =>
      .threw "Error: Simple content plugin could not compute replacement" }

def conflictThrow : GitConflict :=
  { file := "f.txt", type := ConflictType.content, hunks := [],
    complexity := ConflictComplexity.simple, explanation := Option.none,
    autoResolvable := true }

/-- **C4 counterexample.** With a supporting-but-throwing plugin, the
resolution run terminates normally and the error *is* captured into the
aggregate result's `failedFiles`/`errors` — contradicting the claim that
it propagates out instead of being captured there. -/
theorem plugin_throw_not_propagated :
    (autoResolveConflicts [conflictThrow] false Fallback.incoming [throwingPlugin]
        ⟨[("f.txt", "body")]⟩).1.failedFiles = ["f.txt"] ∧
    (autoResolveConflicts [conflictThrow] false Fallback.incoming [throwingPlugin]
        ⟨[("f.txt", "body")]⟩).1.errors
      = ["Failed to resolve f.txt: Error: Simple content plugin could not compute replacement"] ∧
    (autoResolveConflicts [conflictThrow] false Fallback.incoming [throwingPlugin]
        ⟨[("f.txt", "body")]⟩).1.fallbackApplied = [] ∧
    (autoResolveConflicts [conflictThrow] false Fallback.incoming [throwingPlugin]
        ⟨[("f.txt", "body")]⟩).1.success = false := by
  exact ⟨by decide, by decide, by decide, by decide⟩

theorem plugin_throw_recorded_witness :
    autoResolveConflicts [conflictThrow] true Fallback.current [throwingPlugin]
        ⟨[("f.txt", "body")]⟩
      = ({ emptyResult with failedFiles := ["f.txt"],
                            errors := [failedResolveMsg "f.txt"
                              "Error: Simple content plugin could not compute replacement"],
                            success := false }, ⟨[("f.txt", "body")]⟩) :=
  plugin_throw_recorded conflictThrow [throwingPlugin] Fallback.current true
    ⟨[("f.txt", "body")]⟩ "Error: Simple content plugin could not compute replacement" rfl

/-! ## Claim C7 -/

theorem find?_map_replace (es : List (String × String)) (pth content g : String)
    (h : ¬ g = pth) :
    List.find? (fun e => e.1 == g)
        (es.map fun e => if e.1 == pth then (pth, content) else e)
      = List.find? (fun e => e.1 == g) es := by
  induction es with
  | nil => rfl
  | cons e es ih =>
    by_cases he : e.1 = pth
    · have h1 : (e.1 == pth) = true := by simp [he]
      have hite : (if e.1 == pth then (pth, content) else e) = (pth, content) := by
        simp [h1]
      have h2 : (pth == g) = false := by
        simp only [beq_eq_false_iff_ne, ne_eq]
        intro hg
        exact h hg.symm
      have h3 : (e.1 == g) = false := by
        simp only [beq_eq_false_iff_ne, ne_eq]
        intro hg
        exact h (by rw [← hg, he])
      simp only [List.map_cons, hite, List.find?, h2, h3]
      exact ih
    · have h1 : (e.1 == pth) = false := by simp [he]
      have hite : (if e.1 == pth then (pth, content) else e) = e := by
        simp [h1]
      simp only [List.map_cons, hite, List.find?]
      cases hg : (e.1 == g) with
      | true => rfl
      | false => exact ih

theorem find?_append_single (es : List (String × String)) (pth content g : String)
    (h : ¬ g = pth) :
    List.find? (fun e => e.1 == g) (es ++ [(pth, content)])
      = List.find? (fun e => e.1 == g) es := by
  induction es with
  | nil =>
    have h2 : (pth == g) = false := by
      simp only [beq_eq_false_iff_ne, ne_eq]
      intro hg
      exact h hg.symm
    simp [List.find?, h2]
  | cons e es ih =>
    simp only [List.cons_append, List.find?]
    cases hg : (e.1 == g) with
    | true => rfl
    | false => exact ih

theorem FS.read_write_other (fs : FS) (pth content g : String) (h : ¬ g = pth) :
    (fs.write pth content).read g = fs.read g := by
  rcases fs with ⟨files⟩
  simp only [FS.write]
  split
  · simp only [FS.read]
    rw [find?_map_replace files pth content g h]
  · simp only [FS.read]
    rw [find?_append_single files pth content g h]

theorem resolveStep_dry_fs (plugins : List Plugin) (fb : Fallback) (fs : FS)
    (acc : ResolutionResult) (c : GitConflict) :
    (resolveStep plugins fb true fs acc c).2 = fs := by
  rcases hr : runPluginsR c plugins ((fs.read c.file).getD "") with e | o
  · simp [resolveStep, hr]
  · rcases o with - | o
    · by_cases hfb : fb = Fallback.none
      · simp [resolveStep, hr, hfb]
      · rcases hf : applyFallbackStrategy c fb fs with e | fc
        · simp [resolveStep, hr, hfb, hf]
        · rcases fc with - | str
          · simp [resolveStep, hr, hfb, hf]
          · by_cases hs : str = "" <;> simp [resolveStep, hr, hfb, hf, hs]
    · simp [resolveStep, hr]

theorem resolveStep_read_other (plugins : List Plugin) (fb : Fallback) (dryRun : Bool)
    (fs : FS) (acc : ResolutionResult) (c : GitConflict) (g : String) (h : ¬ g = c.file) :
    (resolveStep plugins fb dryRun fs acc c).2.read g = fs.read g := by
  rcases hr : runPluginsR c plugins ((fs.read c.file).getD "") with e | o
  · simp [resolveStep, hr]
  · rcases o with - | o
    · by_cases hfb : fb = Fallback.none
      · simp [resolveStep, hr, hfb]
      · rcases hf : applyFallbackStrategy c fb fs with e | fc
        · simp [resolveStep, hr, hfb, hf]
        · rcases fc with - | str
          · simp [resolveStep, hr, hfb, hf]
          · by_cases hs : str = "" <;> by_cases hd : dryRun <;>
              simp [resolveStep, hr, hfb, hf, hs, hd, FS.read_write_other _ _ _ _ h]
    · by_cases hd : dryRun <;>
        simp [resolveStep, hr, hd, FS.read_write_other _ _ _ _ h]

theorem resolveStep_fst_congr (plugins : List Plugin) (fb : Fallback) (d1 d2 : Bool)
    (fs1 fs2 : FS) (acc : ResolutionResult) (c : GitConflict)
    (h : fs1.read c.file = fs2.read c.file) :
    (resolveStep plugins fb d1 fs1 acc c).1 = (resolveStep plugins fb d2 fs2 acc c).1 := by
  have happ : applyFallbackStrategy c fb fs1 = applyFallbackStrategy c fb fs2 := by
    unfold applyFallbackStrategy
    rw [h]
  rcases hr : runPluginsR c plugins ((fs2.read c.file).getD "") with e | o
  · simp [resolveStep, h, hr]
  · rcases o with - | o
    · by_cases hfb : fb = Fallback.none
      · simp [resolveStep, h, hr, hfb]
      · rcases hf : applyFallbackStrategy c fb fs2 with e | fc
        · simp [resolveStep, h, hr, hfb, happ, hf]
        · rcases fc with - | str
          · simp [resolveStep, h, hr, hfb, happ, hf]
          · by_cases hs : str = "" <;> simp [resolveStep, h, hr, hfb, happ, hf, hs]
    · simp [resolveStep, h, hr]

theorem autoResolveGo_dry_fs (plugins : List Plugin) (fb : Fallback)
    (cs : List GitConflict) :
    ∀ (fs : FS) (acc : ResolutionResult),
      (autoResolveGo plugins fb true cs fs acc).2 = fs := by
  induction cs with
  | nil => intro fs acc; rfl
  | cons c cs ih =>
    intro fs acc
    simp only [autoResolveGo]
    rw [resolveStep_dry_fs, ih]

theorem autoResolveGo_dry_wet (plugins : List Plugin) (fb : Fallback)
    (cs : List GitConflict) :
    ∀ (fs1 fs2 : FS) (acc : ResolutionResult),
      (∀ c ∈ cs, fs1.read c.file = fs2.read c.file) →
      (cs.map (·.file)).Nodup →
      (autoResolveGo plugins fb true cs fs1 acc).1
        = (autoResolveGo plugins fb false cs fs2 acc).1 := by
  induction cs with
  | nil => intro fs1 fs2 acc _ _; rfl
  | cons c cs ih =>
    intro fs1 fs2 acc hread hnodup
    have hcons : (∀ x ∈ cs, ¬ x.file = c.file) ∧ (List.map (fun x => x.file) cs).Nodup := by
      simpa using hnodup
    simp only [autoResolveGo]
    have hstep : (resolveStep plugins fb true fs1 acc c).1
        = (resolveStep plugins fb false fs2 acc c).1 :=
      resolveStep_fst_congr plugins fb true false fs1 fs2 acc c (hread c (by simp))
    rw [resolveStep_dry_fs, hstep]
    apply ih
    · intro d hd
      rw [resolveStep_read_other plugins fb false fs2 acc c d.file (hcons.1 d hd)]
      exact hread d (by simp [hd])
    · exact hcons.2

/-- **C7.** With `dryRun = true`, `autoResolveConflicts` leaves the file
system untouched (no file writes; the model has no staging call inside
`autoResolveConflicts` at all, matching the source, where staging is a
separate method), yet produces exactly the `ResolutionResult` — in
particular the same `resolvedFiles` — that a non-dry run over the same
conflicts would produce.  The conflicts are assumed to target pairwise
distinct files, as §5 of the spec guarantees for a run. -/
theorem dryRun_frame (conflicts : List GitConflict) (fb : Fallback)
    (plugins : List Plugin) (fs : FS)
    (hnodup : (conflicts.map (·.file)).Nodup) :
    (autoResolveConflicts conflicts true fb plugins fs).2 = fs ∧
    (autoResolveConflicts conflicts true fb plugins fs).1
      = (autoResolveConflicts conflicts false fb plugins fs).1 := by
  constructor
  · exact autoResolveGo_dry_fs plugins fb conflicts fs emptyResult
  · exact autoResolveGo_dry_wet plugins fb conflicts fs fs emptyResult
      (fun _ _ => rfl) hnodup

/-- A constant plugin and conflict for the dry-run witness. -/
def pluginConst : Plugin :=
  { name := "const", priority := Option.none, supports := fun _ => true,
    resolve := fun _ _ => .resolved "merged" [] }

def conflictDry : GitConflict :=
  { file := "w.txt", type := ConflictType.whitespace, hunks := [],
    complexity := ConflictComplexity.trivial, explanation := Option.none,
    autoResolvable := true }

theorem dryRun_frame_witness :
    (autoResolveConflicts [conflictDry] true Fallback.incoming [pluginConst]
        ⟨[("w.txt", "body")]⟩).2 = ⟨[("w.txt", "body")]⟩ ∧
    (autoResolveConflicts [conflictDry] true Fallback.incoming [pluginConst]
        ⟨[("w.txt", "body")]⟩).1
      = (autoResolveConflicts [conflictDry] false Fallback.incoming [pluginConst]
        ⟨[("w.txt", "body")]⟩).1 :=
  dryRun_frame [conflictDry] Fallback.incoming [pluginConst]
    ⟨[("w.txt", "body")]⟩ (by decide)

/-! ## Claim C6 -/

/-- Each loop iteration ends in exactly one of three record shapes: a
failure entry, a plugin resolution, or a (non-`none`) fallback
application. -/
theorem resolveStep_shape (plugins : List Plugin) (fb : Fallback) (dryRun : Bool)
    (fs : FS) (acc : ResolutionResult) (c : GitConflict) :
    (∃ e, (resolveStep plugins fb dryRun fs acc c).1
        = { acc with failedFiles := acc.failedFiles ++ [c.file],
                     errors := acc.errors ++ [e], success := false }) ∨
    (∃ pl nts, (resolveStep plugins fb dryRun fs acc c).1
        = { acc with resolvedFiles := acc.resolvedFiles ++ [c.file],
                     resolvedBy := acc.resolvedBy ++ [(c.file, pl, nts)],
                     notes := acc.notes ++ nts.map fun n => c.file ++ ": " ++ n }) ∨
    (fb ≠ Fallback.none ∧ (resolveStep plugins fb dryRun fs acc c).1
        = { acc with resolvedFiles := acc.resolvedFiles ++ [c.file],
                     fallbackApplied := acc.fallbackApplied ++ [(c.file, fb)],
                     warnings := acc.warnings ++ [fallbackWarningMsg c.file fb] }) := by
  rcases hr : runPluginsR c plugins ((fs.read c.file).getD "") with e | o
  · exact Or.inl ⟨failedResolveMsg c.file e, by simp [resolveStep, hr]⟩
  · rcases o with - | o
    · by_cases hfb : fb = Fallback.none
      · exact Or.inl ⟨noStrategyMsg c.file, by simp [resolveStep, hr, hfb]⟩
      · rcases hf : applyFallbackStrategy c fb fs with e | fc
        · exact Or.inl ⟨failedResolveMsg c.file e, by simp [resolveStep, hr, hfb, hf]⟩
        · rcases fc with - | str
          · exact Or.inl ⟨noStrategyMsg c.file, by simp [resolveStep, hr, hfb, hf]⟩
          · by_cases hs : str = ""
            · exact Or.inl ⟨noStrategyMsg c.file, by simp [resolveStep, hr, hfb, hf, hs]⟩
            · exact Or.inr (Or.inr ⟨hfb, by simp [resolveStep, hr, hfb, hf, hs]⟩)
    · exact Or.inr (Or.inl ⟨o.plugin, o.notes, by simp [resolveStep, hr]⟩)

theorem resolveStep_invariants (plugins : List Plugin) (fb : Fallback) (dryRun : Bool)
    (fs : FS) (acc : ResolutionResult) (c : GitConflict)
    (h1 : acc.warnings = acc.fallbackApplied.map fun e => fallbackWarningMsg e.1 e.2)
    (h2 : ∀ e ∈ acc.fallbackApplied, e.2 ≠ Fallback.none)
    (h3 : ∀ f ∈ acc.fallbackApplied.map Prod.fst, f ∉ acc.resolvedBy.map fun e => e.1)
    (hc1 : c.file ∉ acc.fallbackApplied.map Prod.fst)
    (hc2 : c.file ∉ acc.resolvedBy.map fun e => e.1) :
    ((resolveStep plugins fb dryRun fs acc c).1.warnings
      = (resolveStep plugins fb dryRun fs acc c).1.fallbackApplied.map
          fun e => fallbackWarningMsg e.1 e.2) ∧
    (∀ e ∈ (resolveStep plugins fb dryRun fs acc c).1.fallbackApplied,
      e.2 ≠ Fallback.none) ∧
    (∀ f ∈ (resolveStep plugins fb dryRun fs acc c).1.fallbackApplied.map Prod.fst,
      f ∉ (resolveStep plugins fb dryRun fs acc c).1.resolvedBy.map fun e => e.1) ∧
    (∀ f ∈ (resolveStep plugins fb dryRun fs acc c).1.fallbackApplied.map Prod.fst,
      f ∈ acc.fallbackApplied.map Prod.fst ∨ f = c.file) ∧
    (∀ f ∈ (resolveStep plugins fb dryRun fs acc c).1.resolvedBy.map (fun e => e.1),
      f ∈ acc.resolvedBy.map (fun e => e.1) ∨ f = c.file) := by
  rcases resolveStep_shape plugins fb dryRun fs acc c with
    ⟨e, hEq⟩ | ⟨pl, nts, hEq⟩ | ⟨hfb, hEq⟩
  · rw [hEq]
    exact ⟨h1, h2, fun f hf => h3 f hf, fun f hf => Or.inl hf, fun f hf => Or.inl hf⟩
  · rw [hEq]
    refine ⟨h1, h2, ?_, fun f hf => Or.inl hf, ?_⟩
    · intro f hf
      simp only [List.map_append, List.mem_append, List.map_cons, List.map_nil,
        List.mem_cons, List.not_mem_nil, or_false] at *
      rintro (hres | rfl)
      · exact h3 f hf hres
      · exact hc1 hf
    · intro f hf
      simp only [List.map_append, List.mem_append, List.map_cons, List.map_nil,
        List.mem_cons, List.not_mem_nil, or_false] at hf
      rcases hf with hf | rfl
      · exact Or.inl hf
      · exact Or.inr rfl
  · rw [hEq]
    refine ⟨?_, ?_, ?_, ?_, fun f hf => Or.inl hf⟩
    · simp [h1]
    · intro e he
      rcases List.mem_append.mp he with he | he
      · exact h2 e he
      · simp only [List.mem_singleton] at he
        subst he
        exact hfb
    · intro f hf
      simp only [List.map_append, List.mem_append, List.map_cons, List.map_nil,
        List.mem_cons, List.not_mem_nil, or_false] at hf
      rcases hf with hf | rfl
      · exact h3 f hf
      · exact hc2
    · intro f hf
      simp only [List.map_append, List.mem_append, List.map_cons, List.map_nil,
        List.mem_cons, List.not_mem_nil, or_false] at hf
      rcases hf with hf | rfl
      · exact Or.inl hf
      · exact Or.inr rfl

theorem autoResolveGo_distinguish (plugins : List Plugin) (fb : Fallback) (dryRun : Bool)
    (cs : List GitConflict) :
    ∀ (fs : FS) (acc : ResolutionResult),
      acc.warnings = acc.fallbackApplied.map (fun e => fallbackWarningMsg e.1 e.2) →
      (∀ e ∈ acc.fallbackApplied, e.2 ≠ Fallback.none) →
      (∀ f ∈ acc.fallbackApplied.map Prod.fst, f ∉ acc.resolvedBy.map fun e => e.1) →
      (∀ c ∈ cs, c.file ∉ acc.fallbackApplied.map Prod.fst ∧
        c.file ∉ acc.resolvedBy.map fun e => e.1) →
      (cs.map (·.file)).Nodup →
      ((autoResolveGo plugins fb dryRun cs fs acc).1.warnings
        = (autoResolveGo plugins fb dryRun cs fs acc).1.fallbackApplied.map
            fun e => fallbackWarningMsg e.1 e.2) ∧
      (∀ e ∈ (autoResolveGo plugins fb dryRun cs fs acc).1.fallbackApplied,
        e.2 ≠ Fallback.none) ∧
      (∀ f ∈ (autoResolveGo plugins fb dryRun cs fs acc).1.fallbackApplied.map Prod.fst,
        f ∉ (autoResolveGo plugins fb dryRun cs fs acc).1.resolvedBy.map fun e => e.1) := by
  induction cs with
  | nil =>
    intro fs acc h1 h2 h3 _ _
    exact ⟨h1, h2, h3⟩
  | cons c cs ih =>
    intro fs acc h1 h2 h3 hfresh hnodup
    have hcons : (∀ x ∈ cs, ¬ x.file = c.file) ∧ (List.map (fun x => x.file) cs).Nodup := by
      simpa using hnodup
    obtain ⟨g1, g2, g3, g4, g5⟩ :=
      resolveStep_invariants plugins fb dryRun fs acc c h1 h2 h3
        (hfresh c (by simp)).1 (hfresh c (by simp)).2
    simp only [autoResolveGo]
    apply ih _ _ g1 g2 g3
    · intro d hd
      constructor
      · intro hmem
        rcases g4 d.file hmem with hmem' | hEq
        · exact (hfresh d (by simp [hd])).1 hmem'
        · exact hcons.1 d hd hEq
      · intro hmem
        rcases g5 d.file hmem with hmem' | hEq
        · exact (hfresh d (by simp [hd])).2 hmem'
        · exact hcons.1 d hd hEq
    · exact hcons.2

/-- **C6.** In every `ResolutionResult` of a run over conflicts with
pairwise distinct files: the warnings are exactly the fallback warnings of
the `fallbackApplied` entries, in order (so every fallback-resolved
conflict contributes an entry *and* its warning, and plugin-resolved
conflicts contribute no fallback warning); every `fallbackApplied`
strategy is non-`none`; and no file appears in both `fallbackApplied` and
`resolvedBy` — fallback outcomes are always distinguishable from
plugin-backed resolutions. -/
theorem fallback_vs_plugin_distinguishable (conflicts : List GitConflict) (dryRun : Bool)
    (fb : Fallback) (plugins : List Plugin) (fs : FS)
    (hnodup : (conflicts.map (·.file)).Nodup) :
    ((autoResolveConflicts conflicts dryRun fb plugins fs).1.warnings
      = (autoResolveConflicts conflicts dryRun fb plugins fs).1.fallbackApplied.map
          fun e => fallbackWarningMsg e.1 e.2) ∧
    (∀ e ∈ (autoResolveConflicts conflicts dryRun fb plugins fs).1.fallbackApplied,
      e.2 ≠ Fallback.none) ∧
    (∀ f ∈ (autoResolveConflicts conflicts dryRun fb plugins fs).1.fallbackApplied.map
        Prod.fst,
      f ∉ (autoResolveConflicts conflicts dryRun fb plugins fs).1.resolvedBy.map
        fun e => e.1) := by
  exact autoResolveGo_distinguish plugins fb dryRun conflicts fs emptyResult rfl
    (by simp [emptyResult]) (by simp [emptyResult]) (by simp [emptyResult]) hnodup

/-- A plugin that supports only `b.txt`, so that in the witness run one
conflict is plugin-resolved and the other falls back. -/
def pluginOnlyB : Plugin :=
  { name := "only-b", priority := some 10,
    supports := fun c => c.file == "b.txt",
    resolve := fun _ _ => .resolved "PLUGIN" [] }

def conflictA : GitConflict :=
  { file := "a.txt", type := ConflictType.content, hunks := [],
    complexity := ConflictComplexity.simple, explanation := Option.none,
    autoResolvable := false }

def conflictB : GitConflict :=
  { file := "b.txt", type := ConflictType.content, hunks := [],
    complexity := ConflictComplexity.simple, explanation := Option.none,
    autoResolvable := false }

theorem fallback_vs_plugin_distinguishable_witness :
    ((autoResolveConflicts [conflictA, conflictB] false Fallback.incoming [pluginOnlyB]
        ⟨[("a.txt", "A"), ("b.txt", "B")]⟩).1.warnings
      = (autoResolveConflicts [conflictA, conflictB] false Fallback.incoming [pluginOnlyB]
        ⟨[("a.txt", "A"), ("b.txt", "B")]⟩).1.fallbackApplied.map
          fun e => fallbackWarningMsg e.1 e.2) ∧
    (∀ e ∈ (autoResolveConflicts [conflictA, conflictB] false Fallback.incoming [pluginOnlyB]
        ⟨[("a.txt", "A"), ("b.txt", "B")]⟩).1.fallbackApplied,
      e.2 ≠ Fallback.none) ∧
    (∀ f ∈ (autoResolveConflicts [conflictA, conflictB] false Fallback.incoming [pluginOnlyB]
        ⟨[("a.txt", "A"), ("b.txt", "B")]⟩).1.fallbackApplied.map Prod.fst,
      f ∉ (autoResolveConflicts [conflictA, conflictB] false Fallback.incoming [pluginOnlyB]
        ⟨[("a.txt", "A"), ("b.txt", "B")]⟩).1.resolvedBy.map fun e => e.1) :=
  fallback_vs_plugin_distinguishable [conflictA, conflictB] false Fallback.incoming
    [pluginOnlyB] ⟨[("a.txt", "A"), ("b.txt", "B")]⟩ (by decide)

/-! ## Claim C10 -/

theorem applyFallbackGo_some (s : Fallback) (hunks : List ConflictHunk) :
    ∀ content, s ≠ Fallback.none → ∃ str, applyFallbackGo s hunks content = some str := by
  induction hunks with
  | nil =>
    intro content _
    exact ⟨content, rfl⟩
  | cons h hs ih =>
    intro content hsne
    cases s with
    | incoming => simpa [applyFallbackGo] using ih _ hsne
    | current => simpa [applyFallbackGo] using ih _ hsne
    | both => simpa [applyFallbackGo] using ih _ hsne
    | none => exact absurd rfl hsne

/-- **C10 (amended).** Under the strategies `incoming`, `current` and
`both`, the hunk loop of `applyFallbackStrategy` returns a string for
every conflict, even when the hunk list is empty (part 1) — so its
`undefined` branch is unreachable.  However the resolver checks the result
with JS truthiness, so the `"No automated strategy matched"` failure is
avoided only when that string is nonempty: with a non-`none` fallback, a
conflict on which no plugin resolves and whose fallback string is nonempty
never enters `failedFiles` (part 2), and a plugin-resolved conflict never
does either (part 3).  (The empty-string case does reach the
no-strategy-matched branch; see the counterexample.) -/
theorem fallback_always_string :
    (∀ (s : Fallback) (hunks : List ConflictHunk) (content : String),
      s ≠ Fallback.none → ∃ str, applyFallbackGo s hunks content = some str) ∧
    (∀ (plugins : List Plugin) (fb : Fallback) (dryRun : Bool) (c : GitConflict)
        (fs : FS) (str : String),
      fb ≠ Fallback.none →
      runPluginsR c plugins ((fs.read c.file).getD "") = .ok Option.none →
      applyFallbackStrategy c fb fs = .ok (some str) → str ≠ "" →
      (autoResolveConflicts [c] dryRun fb plugins fs).1.failedFiles = [] ∧
      (autoResolveConflicts [c] dryRun fb plugins fs).1.errors = [] ∧
      (autoResolveConflicts [c] dryRun fb plugins fs).1.fallbackApplied = [(c.file, fb)]) ∧
    (∀ (plugins : List Plugin) (fb : Fallback) (dryRun : Bool) (c : GitConflict)
        (fs : FS) (o : PluginOutcome),
      runPluginsR c plugins ((fs.read c.file).getD "") = .ok (some o) →
      (autoResolveConflicts [c] dryRun fb plugins fs).1.failedFiles = [] ∧
      (autoResolveConflicts [c] dryRun fb plugins fs).1.errors = []) := by
  refine ⟨fun s hunks content hs => applyFallbackGo_some s hunks content hs, ?_, ?_⟩
  · intro plugins fb dryRun c fs str hfb hplug hfall hs
    refine ⟨?_, ?_, ?_⟩ <;>
      simp [autoResolveConflicts, autoResolveGo, resolveStep, hplug, hfb, hfall, hs,
        emptyResult]
  · intro plugins fb dryRun c fs o hplug
    refine ⟨?_, ?_⟩ <;>
      simp [autoResolveConflicts, autoResolveGo, resolveStep, hplug, emptyResult]

/-- A conflict whose file content is empty: the fallback computes the
empty string. -/
def conflictEmpty : GitConflict :=
  { file := "e.txt", type := ConflictType.content, hunks := [],
    complexity := ConflictComplexity.trivial, explanation := Option.none,
    autoResolvable := false }

/-- **C10 counterexample.** With fallback `incoming` (not `none`),
`applyFallbackStrategy` *does* return a string — but the empty one — and
the resolver's truthiness check then sends the conflict into `failedFiles`
through the "No automated strategy matched" branch, with no exception
thrown anywhere.  The claimed unreachability of that branch is wrong. -/
theorem empty_fallback_miss :
    applyFallbackStrategy conflictEmpty Fallback.incoming ⟨[("e.txt", "")]⟩
      = .ok (some "") ∧
    (autoResolveConflicts [conflictEmpty] false Fallback.incoming []
        ⟨[("e.txt", "")]⟩).1.failedFiles = ["e.txt"] ∧
    (autoResolveConflicts [conflictEmpty] false Fallback.incoming []
        ⟨[("e.txt", "")]⟩).1.errors = ["No automated strategy matched e.txt."] := by
  exact ⟨rfl, by decide, by decide⟩

theorem fallback_always_string_witness :
    (∃ str, applyFallbackGo Fallback.both [mkContentHunk "x" "y"] "body" = some str) ∧
    ((autoResolveConflicts [conflictA] false Fallback.incoming []
        ⟨[("a.txt", "A")]⟩).1.failedFiles = [] ∧
      (autoResolveConflicts [conflictA] false Fallback.incoming []
        ⟨[("a.txt", "A")]⟩).1.errors = [] ∧
      (autoResolveConflicts [conflictA] false Fallback.incoming []
        ⟨[("a.txt", "A")]⟩).1.fallbackApplied = [("a.txt", Fallback.incoming)]) ∧
    ((autoResolveConflicts [conflictB] true Fallback.none [pluginOnlyB]
        ⟨[("b.txt", "B")]⟩).1.failedFiles = [] ∧
      (autoResolveConflicts [conflictB] true Fallback.none [pluginOnlyB]
        ⟨[("b.txt", "B")]⟩).1.errors = []) :=
  ⟨fallback_always_string.1 Fallback.both [mkContentHunk "x" "y"] "body" (by decide),
   fallback_always_string.2.1 [] Fallback.incoming false conflictA
     ⟨[("a.txt", "A")]⟩ "A" (by decide) rfl rfl (by decide),
   fallback_always_string.2.2 [pluginOnlyB] Fallback.none true conflictB
     ⟨[("b.txt", "B")]⟩ ⟨"PLUGIN", "only-b", []⟩ rfl⟩

end Smugit
